import Mathlib

/-!
# simpleClock: a shallow embedding of `simpleClock.c`

The render state of the program (the globals `Screen`, `Rows`, `Columns`,
`Size`, `Space`) is a record that every operation receives and returns.

Machine integers (LP64, as compiled by gcc on Linux):

* `size_t` values (`Rows`, `Columns`, every expression that mentions one of
  them) are natural numbers reduced modulo `2 ^ 64`;
* a `size_t` value stored in an `int` is reduced to 32 bits (`toInt`);
* expressions made of `int` operands only are evaluated on `Int`, with the
  truncating `/` and `%` of C (`Int.tdiv`, `Int.tmod`); signed overflow is
  undefined behaviour in C and is not given a meaning here;
* `fmin` / `fmax` are called on values that `double` represents exactly, or
  that are compared with a small constant only, so they are `min` / `max`.

A store outside the allocated buffer is undefined behaviour; the operations
that store into the buffer return `Option State` and answer `none` for it.
The answer of `malloc` (a null pointer, or fresh storage of indeterminate
content) is an input of `ResizeMalloc` and `Handle`.
-/

namespace SimpleClock

/-- The five tones of a cell, `enum Block` (`BLOCK_TOTAL_TONES` is a count, not a tone). -/
inductive Block where
  | BLOCK_WHITE
  | BLOCK_LIGHT_GREY
  | BLOCK_GREY
  | BLOCK_DARK_GREY
  | BLOCK_BLACK
  deriving DecidableEq, Repr, Inhabited

/-- The constant `SPACE`, space between segments. -/
def SPACE : Int := 4

/-- The globals of the program: the buffer, its dimensions and the layout. -/
structure State where
  Screen : List Block
  Rows : Nat
  Columns : Nat
  Size : Int
  Space : Int
  deriving DecidableEq, Repr

/-- The state of the globals when `main` starts (static storage is zeroed,
`Screen` is a null pointer: no cell is allocated). -/
def initialState : State :=
  { Screen := [], Rows := 0, Columns := 0, Size := 0, Space := 0 }

/-- Conversion of an integer value to `int`: reduction to 32 bits, the result lies
in `[-2 ^ 31, 2 ^ 31)`. -/
def toInt (n : Int) : Int := (n + 2 ^ 31) % 2 ^ 32 - 2 ^ 31

/-- Conversion of an integer value to `size_t`: reduction modulo `2 ^ 64`. -/
def toSizeT (n : Int) : Int := n % 2 ^ 64

/-- The definition `GET_INDEX(r, c)`, `(c) + (r) * (Columns)`, evaluated in `size_t`
because `Columns` is one. -/
def GET_INDEX (Columns : Nat) (r c : Int) : Int :=
  toSizeT (c + r * (Columns : Int))

/-- The function `SetBlock`. After the test `r < 0` (resp. `c < 0`) has failed, the
conversion of `r` to `size_t` for `r >= Rows` keeps its value. `Index` is an
`int`; the store `Screen[Index] = b` is defined only inside the buffer. -/
def SetBlock (st : State) (b : Block) (r c : Int) : Option State :=
  if r < 0 ∨ (st.Rows : Int) ≤ r ∨ c < 0 ∨ (st.Columns : Int) ≤ c then
    some st
  else
    let Index : Int := toInt (GET_INDEX st.Columns r c)
    if 0 ≤ Index ∧ Index.toNat < st.Screen.length then
      some { st with Screen := st.Screen.set Index.toNat b }
    else
      none

/-- The call `memset(Screen, 0, bytes)` on a buffer of 4-byte cells: the first
`bytes / 4` cells become `BLOCK_WHITE` (the tone of value 0). It is defined
only when that many cells are allocated. -/
def memsetZero (Screen : List Block) (bytes : Nat) : Option (List Block) :=
  let cells := bytes / 4
  if cells ≤ Screen.length then
    some (List.replicate cells Block.BLOCK_WHITE ++ Screen.drop cells)
  else
    none

/-- The function `ClearScreen`: `memset(Screen, 0, Rows * Columns * sizeof(*Screen))`. -/
def ClearScreen (st : State) : Option State :=
  (memsetZero st.Screen ((st.Rows * st.Columns * 4) % 2 ^ 64)).map
    fun s => { st with Screen := s }

/-- The layout part of `Resize` (the lines under "Make sure size fits" and
"Make sure Space fits"), from the new `Columns` and the value `Space` holds
when `Resize` is entered. Returns `(Size, Space)`. -/
def ResizeLayout (Columns : Nat) (Space : Int) : Int × Int :=
  let Size : Int := toInt (toSizeT ((Columns : Int) - Space * 5 - 2) / 6)
  let Size : Int := Size - Int.tmod Size 2
  let Size : Int := max Size 4
  let Space : Int := min SPACE (toSizeT ((Columns : Int) - Size * 6 - 2) / 5)
  let Space : Int := Space - Int.tmod Space 2
  let Space : Int := max Space 2
  (Size, Space)

/-- The function `Resize`, on the path where `malloc` succeeds (when it fails the
following `memset` on a null pointer ends the program: `ResizeMalloc` has both
paths). `ws_row` and `ws_col` are the `unsigned short` fields the terminal
reports. -/
def Resize (st : State) (ws_row ws_col : Nat) : State :=
  let Rows := ws_row % 65536 + 1
  let Columns := ws_col % 65536 + 1
  let Screen := List.replicate (Rows * Columns * 4 % 2 ^ 64 / 4) Block.BLOCK_WHITE
  let layout := ResizeLayout Columns st.Space
  { Screen := Screen, Rows := Rows, Columns := Columns,
    Size := layout.1, Space := layout.2 }

/-- The function `Init`, as far as the render state goes: it calls `Resize`. -/
def Init (st : State) (ws_row ws_col : Nat) : State :=
  Resize st ws_row ws_col

/-- The table `Numbers`: the stroke mask of each digit, as bytes. -/
def Numbers : List Nat :=
  [0x7d, 0x18, 0x37, 0x67, 0x6a, 0x4f, 0x5f, 0x61, 0xff, 0x6b]

/-- The local table `Segments` of `DrawSegment`: the `(x, y)` start of each stroke. -/
def Segments (Size : Int) : List (Int × Int) :=
  [(0, 0), (0, Int.tdiv Size 2), (0, Size), (0, 0), (0, Int.tdiv Size 2),
   (Size, 0), (Size, Int.tdiv Size 2)]

/-- The inner loop of `DrawSegment` for the stroke `i`: the cells `(row, column)`
it passes to `SetBlock`, in order (`j` runs from 0 to the bound, inclusive). -/
def StrokeCells (i : Nat) (r c Size : Int) : List (Int × Int) :=
  let Horiz : Int := if i < 3 then 1 else 0
  let NotHoriz : Int := if Horiz = 0 then 1 else 0
  let p := (Segments Size).getD i (0, 0)
  (List.range (Size * Horiz + Int.tdiv Size 2 * NotHoriz + 1).toNat).map fun (j : Nat) =>
    let x := p.1 + (j : Int) * Horiz
    let y := p.2 + (j : Int) * NotHoriz
    (r + y, c + x)

/-- The cells `(row, column)` that `DrawSegment` passes to `SetBlock`, in the order
of the two nested loops. The test `Segment & (1 << i)` looks at bits 0..6
only, where the byte and its promotion to `int` agree. -/
def DrawSegmentCells (Num r c Size : Int) : List (Int × Int) :=
  let Num : Int := max (min Num 9) 0
  let Segment : Nat := Numbers.getD Num.toNat 0
  if Segment = 0 then
    []
  else
    (List.range 7).flatMap fun i =>
      if Segment &&& (1 <<< i) = 0 then [] else StrokeCells i r c Size

/-- A run of `SetBlock` calls with one tone, in order; it stops at the first
undefined store. -/
def SetBlocks (st : State) (b : Block) : List (Int × Int) → Option State
  | [] => some st
  | p :: ps => (SetBlock st b p.1 p.2).bind fun st1 => SetBlocks st1 b ps

/-- The function `DrawSegment`: every cell of every lit stroke goes to `SetBlock`. -/
def DrawSegment (st : State) (Num r c Size : Int) (b : Block) : Option State :=
  SetBlocks st b (DrawSegmentCells Num r c Size)

/-- The function `DrawNumber`; both calls read the global `Size`, the second one
the global `Space` too. -/
def DrawNumber (st : State) (Num r c : Int) (b : Block) : Option State :=
  let Ones := Int.tmod Num 10
  let Tens := Int.tdiv Num 10
  (DrawSegment st Tens r c st.Size b).bind fun st1 =>
    DrawSegment st1 Ones r (c + st1.Size + st1.Space) st1.Size b

/-- The local variable `TotalX` of `main`: the width of the six-digit layout. -/
def TotalX (st : State) : Int :=
  (st.Space + st.Size) * 5 + st.Size

/-- The local variable `OffsetX` of `main`: `(Columns - TotalX) / 2`, computed in
`size_t` and stored in an `int`. -/
def OffsetX (st : State) : Int :=
  toInt (toSizeT ((st.Columns : Int) - TotalX st) / 2)

/-- The local variable `OffsetY` of `main`: `(Rows - TotalY) / 2` with
`TotalY = Size`, computed in `size_t` and stored in an `int`. -/
def OffsetY (st : State) : Int :=
  toInt (toSizeT ((st.Rows : Int) - st.Size) / 2)

/-- One pass of the loop of `main`, up to the call of `DrawFrame`: the buffer
that is flushed for the local time `tm_hour:tm_min:tm_sec`. The offsets are
computed once, after `ClearScreen`; every later call reads the globals `Size`
and `Space` of the state it runs in. -/
def mainFrame (st : State) (tm_hour tm_min tm_sec : Int) : Option State :=
  (ClearScreen st).bind fun st =>
  let X : Int := OffsetX st
  let Y : Int := OffsetY st
  (DrawNumber st tm_hour Y X Block.BLOCK_DARK_GREY).bind fun st =>
  (SetBlock st Block.BLOCK_BLACK (Y + 3)
    (X + (st.Space + st.Size) * 2 - Int.tdiv st.Space 2)).bind fun st =>
  (SetBlock st Block.BLOCK_BLACK (Y + st.Size - 3)
    (X + (st.Space + st.Size) * 2 - Int.tdiv st.Space 2)).bind fun st =>
  (DrawNumber st tm_min Y (X + (st.Space + st.Size) * 2) Block.BLOCK_GREY).bind fun st =>
  (SetBlock st Block.BLOCK_BLACK (Y + 3)
    (X + (st.Space + st.Size) * 4 - Int.tdiv st.Space 2)).bind fun st =>
  (SetBlock st Block.BLOCK_BLACK (Y + st.Size - 3)
    (X + (st.Space + st.Size) * 4 - Int.tdiv st.Space 2)).bind fun st =>
  DrawNumber st tm_sec Y (X + (st.Space + st.Size) * 4) Block.BLOCK_LIGHT_GREY

/-- The tone of the cell `(r, c)`: the slot `c + r * Columns` of the buffer. -/
def State.cell (st : State) (r c : Nat) : Block :=
  st.Screen.getD (c + r * st.Columns) Block.BLOCK_WHITE

/-- A buffer with dimensions `Rows x Columns`: `Rows * Columns` cells are allocated
(an object of 4-byte cells has fewer than `2 ^ 62` of them). -/
def State.wellFormed (st : State) : Prop :=
  st.Screen.length = st.Rows * st.Columns ∧ st.Rows * st.Columns < 2 ^ 62

instance (st : State) : Decidable st.wellFormed := by
  unfold State.wellFormed
  infer_instance

/-- The cell `p = (row, column)` lies on the stroke `k` of a glyph placed at
`(row, col)` with edge `size`, the strokes placed as the specification says:
0 top, 1 middle, 2 bottom (columns `col..col+size`), 3 upper left, 4 lower
left, 5 upper right, 6 lower right (rows `row..row+size/2` and
`row+size/2..row+size`). -/
def onStroke (k : Nat) (row col size : Int) (p : Int × Int) : Prop :=
  (k = 0 ∧ p.1 = row ∧ col ≤ p.2 ∧ p.2 ≤ col + size)
  ∨ (k = 1 ∧ p.1 = row + size / 2 ∧ col ≤ p.2 ∧ p.2 ≤ col + size)
  ∨ (k = 2 ∧ p.1 = row + size ∧ col ≤ p.2 ∧ p.2 ≤ col + size)
  ∨ (k = 3 ∧ p.2 = col ∧ row ≤ p.1 ∧ p.1 ≤ row + size / 2)
  ∨ (k = 4 ∧ p.2 = col ∧ row + size / 2 ≤ p.1 ∧ p.1 ≤ row + size)
  ∨ (k = 5 ∧ p.2 = col + size ∧ row ≤ p.1 ∧ p.1 ≤ row + size / 2)
  ∨ (k = 6 ∧ p.2 = col + size ∧ row + size / 2 ≤ p.1 ∧ p.1 ≤ row + size)

instance (k : Nat) (row col size : Int) (p : Int × Int) :
    Decidable (onStroke k row col size p) := by
  unfold onStroke
  infer_instance

/-- The cell `p` belongs to the glyph of the digit `v` placed at `(row, col)` with
edge `size`: it lies on a stroke whose bit is set in the mask of `v`. -/
def inGlyph (v : Nat) (row col size : Int) (p : Int × Int) : Prop :=
  ∃ k ∈ List.range 7, (Numbers.getD v 0).testBit k = true ∧ onStroke k row col size p

instance (v : Nat) (row col size : Int) (p : Int × Int) :
    Decidable (inGlyph v row col size p) := by
  unfold inGlyph
  infer_instance

/-- The state of a terminal that reports 65535 rows and 65535 columns, after
`Init` and one window-change signal: `Rows = Columns = 65536`, a buffer of
`2 ^ 32` cells. -/
def hugeTerminal : State :=
  Resize (Init initialState 65535 65535) 65535 65535

/-- The layout invariant of the data model: `Size` even and at least 4, `Space`
even and at least 2. -/
def State.layoutOK (st : State) : Prop :=
  st.Size % 2 = 0 ∧ 4 ≤ st.Size ∧ st.Space % 2 = 0 ∧ 2 ≤ st.Space

instance (st : State) : Decidable st.layoutOK := by
  unfold State.layoutOK
  infer_instance

/-- The states the render loop can be in: the one `Init` leaves, then any number
of window-change signals (`Handle` calls `Resize` and jumps back to the loop)
and of drawn frames. -/
inductive Running : State → Prop where
  | init (ws_row ws_col : Nat) : Running (Init initialState ws_row ws_col)
  | resize (st : State) (ws_row ws_col : Nat) :
      Running st → Running (Resize st ws_row ws_col)
  | frame (st st1 : State) (tm_hour tm_min tm_sec : Int) :
      Running st → mainFrame st tm_hour tm_min tm_sec = some st1 → Running st1

/-- The size the specification gives for a width of `Columns`:
`(Columns - defaultSpacing * 5 - 2) / 6` with `defaultSpacing = 4`, rounded
down to even, floored at 4. -/
def specSize (Columns : Int) : Int :=
  let q := (Columns - 4 * 5 - 2) / 6
  max 4 (q - q % 2)

/-- A small buffer used to evaluate the operations: 2 rows of 3 columns with
mixed tones, layout `Size = 4`, `Space = 2`. -/
def sampleState : State :=
  { Screen := [Block.BLOCK_WHITE, Block.BLOCK_GREY, Block.BLOCK_BLACK,
               Block.BLOCK_DARK_GREY, Block.BLOCK_LIGHT_GREY, Block.BLOCK_WHITE],
    Rows := 2, Columns := 3, Size := 4, Space := 2 }

/-- The cell `p` belongs to the two-digit group of the value `n` placed at
`(row, col)`: the glyph of `n / 10` at `(row, col)` or the glyph of `n % 10` at
`(row, col + Size + Space)`. -/
def inGroup (n : Nat) (row col Size Space : Int) (p : Int × Int) : Prop :=
  inGlyph (n / 10) row col Size p ∨ inGlyph (n % 10) row (col + Size + Space) Size p

instance (n : Nat) (row col Size Space : Int) (p : Int × Int) :
    Decidable (inGroup n row col Size Space p) := by
  unfold inGroup
  infer_instance

/-- The cell `p` is a separator cell of a frame placed at `(offsetY, offsetX)`: row
`offsetY + 3` or `offsetY + Size - 3`, in the column at the centre of the gap
before the minute group or before the second group. -/
def isSeparator (offsetY offsetX Size Space : Int) (p : Int × Int) : Prop :=
  (p.1 = offsetY + 3 ∨ p.1 = offsetY + Size - 3)
  ∧ (p.2 = offsetX + 2 * (Space + Size) - Space / 2
      ∨ p.2 = offsetX + 4 * (Space + Size) - Space / 2)

instance (offsetY offsetX Size Space : Int) (p : Int × Int) :
    Decidable (isSeparator offsetY offsetX Size Space p) := by
  unfold isSeparator
  infer_instance

/-- The frame of the specification for the local time `h:m:s` on a buffer of
`Rows x Columns` cells with the layout `(Size, Space)`: the tone of the cell
`p`. The hour group is dark at column `offsetX`, the minute group medium at
`offsetX + 2 * (Space + Size)`, the second group light at
`offsetX + 4 * (Space + Size)`, all at row `offsetY`; the separator cells are
solid; every other cell is blank. -/
def specFrame (Rows Columns : Nat) (Size Space : Int) (h m s : Nat) (p : Int × Int) : Block :=
  let offsetX : Int := ((Columns : Int) - ((Space + Size) * 5 + Size)) / 2
  let offsetY : Int := ((Rows : Int) - Size) / 2
  if inGroup h offsetY offsetX Size Space p then Block.BLOCK_DARK_GREY
  else if inGroup m offsetY (offsetX + 2 * (Space + Size)) Size Space p then Block.BLOCK_GREY
  else if inGroup s offsetY (offsetX + 4 * (Space + Size)) Size Space p then
    Block.BLOCK_LIGHT_GREY
  else if isSeparator offsetY offsetX Size Space p then Block.BLOCK_BLACK
  else Block.BLOCK_WHITE

/-- The spacing of the specification in signed integer arithmetic:
`t = min(4, (Columns - Size * 6 - 2) / 5)`, rounded down to even, floored
at 2. -/
def specSpace (Columns Size : Int) : Int :=
  let t := min 4 (Int.tdiv (Columns - Size * 6 - 2) 5)
  let e := t - t % 2
  max 2 e

/-- A run of `n` cells on the row `r`, from the column `c` to the right. -/
def rowRun (r c : Int) (n : Nat) : List (Int × Int) :=
  (List.range n).map fun (j : Nat) => (r, c + (j : Int))

/-- A run of `n` cells on the column `c`, from the row `r` downwards. -/
def columnRun (r c : Int) (n : Nat) : List (Int × Int) :=
  (List.range n).map fun (j : Nat) => (r + (j : Int), c)

/-- The column both separator calls of `main` pass to `SetBlock` for the gap before
the group that starts at `OffsetX + (Space + Size) * k` (`k = 2` for the
minutes, `k = 4` for the seconds). -/
def separatorColumn (X Size Space k : Int) : Int :=
  X + (Space + Size) * k - Int.tdiv Space 2

/-- The column `x` is the rightmost column in which `cells` has a cell. -/
def isRightmostColumn (cells : List (Int × Int)) (x : Int) : Prop :=
  (∃ p ∈ cells, p.2 = x) ∧ ∀ p ∈ cells, p.2 ≤ x

instance (cells : List (Int × Int)) (x : Int) : Decidable (isRightmostColumn cells x) := by
  unfold isRightmostColumn
  infer_instance

/-- The column `x` is the leftmost column in which `cells` has a cell. -/
def isLeftmostColumn (cells : List (Int × Int)) (x : Int) : Prop :=
  (∃ p ∈ cells, p.2 = x) ∧ ∀ p ∈ cells, x ≤ p.2

instance (cells : List (Int × Int)) (x : Int) : Decidable (isLeftmostColumn cells x) := by
  unfold isLeftmostColumn
  infer_instance

/-- A cell of the stroke `k` of a glyph that lies on no other stroke: the second
cell of the run. -/
def privateCell (k : Nat) (row col size : Int) : Int × Int :=
  match k with
  | 0 => (row, col + 1)
  | 1 => (row + size / 2, col + 1)
  | 2 => (row + size, col + 1)
  | 3 => (row + 1, col)
  | 4 => (row + size / 2 + 1, col)
  | 5 => (row + 1, col + size)
  | _ => (row + size / 2 + 1, col + size)

/-- The signal numbers `SIGSEGV` and `SIGWINCH` of Linux (from `signal.h`). -/
def SIGSEGV : Int := 11

/-- The signal number `SIGWINCH` of Linux (from `signal.h`). -/
def SIGWINCH : Int := 28

/-- Where control goes when `Handle` ends: back to the top of the loop of `main`
with the state `Resize` left (`longjmp`), or out of the process with an exit
status. -/
inductive Control where
  | restart (st : State)
  | exit (status : Nat)
  deriving DecidableEq, Repr

/-- The function `Cleanup`: the buffer is freed (the cursor is turned back on). -/
def Cleanup (st : State) : State :=
  { st with Screen := [] }

/-- The function `Resize` with both answers of `malloc`, which is an input here:
`none` is the null pointer, `some junk` is fresh storage of the size asked,
whose cell `i` holds the indeterminate tone `junk i`. After a null pointer
`perror` reports the failure and the function goes on: the `memset` that
follows is applied to the null pointer with a length of at least 4 bytes,
which is undefined, and the result is `none`. -/
def ResizeMalloc (st : State) (ws_row ws_col : Nat) (malloc : Option (Nat → Block)) :
    Option State :=
  let Rows := ws_row % 65536 + 1
  let Columns := ws_col % 65536 + 1
  let Screen : List Block :=
    match malloc with
    | none => []
    | some junk => (List.range (4 * Rows * Columns % 2 ^ 64 / 4)).map junk
  (memsetZero Screen (Rows * Columns * 4 % 2 ^ 64)).map fun Screen =>
    let layout := ResizeLayout Columns st.Space
    { Screen := Screen, Rows := Rows, Columns := Columns,
      Size := layout.1, Space := layout.2 }

/-- The function `Handle`. On `SIGWINCH`: `free(Screen)`, `Screen = NULL`, `Resize()`
with what the terminal reports now and what `malloc` answers, `longjmp` to
the loop; it gets there only if `Resize` returns. On any other signal:
`Cleanup()` and `exit(Signal == SIGSEGV)`. -/
def Handle (st : State) (Signal : Int) (ws_row ws_col : Nat) (malloc : Option (Nat → Block)) :
    Option Control :=
  if Signal = SIGWINCH then
    (ResizeMalloc { st with Screen := [] } ws_row ws_col malloc).map Control.restart
  else
    some (Control.exit (if Signal = SIGSEGV then 1 else 0))

/-- The table `Blocks`: the glyph of each tone. -/
def Blocks : List String := [" ", "░", "▒", "▓", "█"]

/-- The value of a tone as an `enum Block` constant. -/
def Block.value : Block → Nat
  | Block.BLOCK_WHITE => 0
  | Block.BLOCK_LIGHT_GREY => 1
  | Block.BLOCK_GREY => 2
  | Block.BLOCK_DARK_GREY => 3
  | Block.BLOCK_BLACK => 4

/-- One output of `DrawFrame`: `MOVE_CURSOR(r, c)` followed by the glyph printed. -/
structure Output where
  r : Int
  c : Int
  glyph : String
  deriving DecidableEq, Repr

/-- The body of the inner loop of `DrawFrame` for the cell `(r, c)`: the index is
kept in an `int`, the read `Screen[Index]` is defined only inside the buffer. -/
def DrawFrameCell (st : State) (r c : Nat) : Option Output :=
  let Index : Int := toInt (GET_INDEX st.Columns r c)
  if 0 ≤ Index ∧ Index.toNat < st.Screen.length then
    some { r := r, c := c,
           glyph := Blocks.getD (st.Screen.getD Index.toNat Block.BLOCK_WHITE).value "" }
  else
    none

/-- The outputs of the steps of a loop, in order; undefined as soon as one step is. -/
def collectOutputs (f : Nat × Nat → Option Output) : List (Nat × Nat) → Option (List Output)
  | [] => some []
  | p :: ps => (f p).bind fun o => (collectOutputs f ps).map fun os => o :: os

/-- The cells `DrawFrame` visits, in the order of its two loops: `r` from 0 to
`Rows - 1`, and for each `r`, `c` from 0 to `Columns - 1`. -/
def DrawFrameOrder (Rows Columns : Nat) : List (Nat × Nat) :=
  (List.range Rows).flatMap fun r => (List.range Columns).map fun c => (r, c)

/-- The function `DrawFrame`: what it sends to the terminal. It has no store into
the globals, the state after it is the state before it. The loop counters
are `int`; `Rows` and `Columns` are at most 65536 in every state `Resize`
leaves, so they do not overflow. -/
def DrawFrame (st : State) : Option (List Output) :=
  collectOutputs (fun p => DrawFrameCell st p.1 p.2) (DrawFrameOrder st.Rows st.Columns)

/-- The cells `DrawNumber` passes to `SetBlock` through its two calls of
`DrawSegment`, in order. -/
def DrawNumberCells (Num r c Size Space : Int) : List (Int × Int) :=
  DrawSegmentCells (Int.tdiv Num 10) r c Size
    ++ DrawSegmentCells (Int.tmod Num 10) r (c + Size + Space) Size

/-- The `SetBlock` calls of one pass of the loop of `main`, after `ClearScreen`, in
the order of the source, each with its tone: the hours, the two separator
cells before the minutes, the minutes, the two separator cells before the
seconds, the seconds. `Y` and `X` are the offsets, `Size` and `Space` the
layout. -/
def frameWrites (Y X Size Space tm_hour tm_min tm_sec : Int) : List (Block × (Int × Int)) :=
  (DrawNumberCells tm_hour Y X Size Space).map (fun p => (Block.BLOCK_DARK_GREY, p))
  ++ [(Block.BLOCK_BLACK, (Y + 3, separatorColumn X Size Space 2)),
      (Block.BLOCK_BLACK, (Y + Size - 3, separatorColumn X Size Space 2))]
  ++ (DrawNumberCells tm_min Y (X + (Space + Size) * 2) Size Space).map
      (fun p => (Block.BLOCK_GREY, p))
  ++ [(Block.BLOCK_BLACK, (Y + 3, separatorColumn X Size Space 4)),
      (Block.BLOCK_BLACK, (Y + Size - 3, separatorColumn X Size Space 4))]
  ++ (DrawNumberCells tm_sec Y (X + (Space + Size) * 4) Size Space).map
      (fun p => (Block.BLOCK_LIGHT_GREY, p))

/-- A sequence of `SetBlock` calls, each with its tone, in order; it stops at the
first undefined store. -/
def paint (st : State) : List (Block × (Int × Int)) → Option State
  | [] => some st
  | w :: ws => (SetBlock st w.1 w.2.1 w.2.2).bind fun st1 => paint st1 ws

/-- The tone of the last call of a sequence that writes the cell `p`, if any: the
tone the cell ends with. -/
def lastTone : List (Block × (Int × Int)) → Int × Int → Option Block
  | [], _ => none
  | w :: ws, p =>
    match lastTone ws p with
    | some b => some b
    | none => if w.2 = p then some w.1 else none

/-- The eight groups of cells of a frame, from left to right: the two glyphs of the
hours, the separator cells of the first gap, the two glyphs of the minutes,
the separator cells of the second gap, the two glyphs of the seconds. -/
def frameGroups (Y X Size Space tm_hour tm_min tm_sec : Int) : List (List (Int × Int)) :=
  [DrawSegmentCells (Int.tdiv tm_hour 10) Y X Size,
   DrawSegmentCells (Int.tmod tm_hour 10) Y (X + Size + Space) Size,
   [(Y + 3, separatorColumn X Size Space 2), (Y + Size - 3, separatorColumn X Size Space 2)],
   DrawSegmentCells (Int.tdiv tm_min 10) Y (X + (Space + Size) * 2) Size,
   DrawSegmentCells (Int.tmod tm_min 10) Y (X + (Space + Size) * 2 + Size + Space) Size,
   [(Y + 3, separatorColumn X Size Space 4), (Y + Size - 3, separatorColumn X Size Space 4)],
   DrawSegmentCells (Int.tdiv tm_sec 10) Y (X + (Space + Size) * 4) Size,
   DrawSegmentCells (Int.tmod tm_sec 10) Y (X + (Space + Size) * 4 + Size + Space) Size]

/-- The first column of each of the eight groups of `frameGroups`. -/
def groupStarts (X Size Space : Int) : List Int :=
  [X, X + Size + Space, separatorColumn X Size Space 2, X + (Space + Size) * 2,
   X + (Space + Size) * 2 + Size + Space, separatorColumn X Size Space 4,
   X + (Space + Size) * 4, X + (Space + Size) * 4 + Size + Space]

/-- The cells `(r, c)` of the buffer that hold the tone `b`. -/
def State.cellsWith (st : State) (b : Block) : Finset (Nat × Nat) :=
  (Finset.range st.Rows ×ˢ Finset.range st.Columns).filter fun p => st.cell p.1 p.2 = b

/-- No cell is written with two different tones by the sequence `ws`. -/
def sameToneWrites (ws : List (Block × (Int × Int))) : Prop :=
  ∀ w1 ∈ ws, ∀ w2 ∈ ws, w1.2 = w2.2 → w1.1 = w2.1

/-- The state of a terminal that reports 11 rows and 49 columns, after `Init` and one
window-change signal: a buffer of 12 x 50 cells, `Size = 6`, `Space = 2`. -/
def sizeSixTerminal : State :=
  Resize (Init initialState 11 49) 11 49

/-- The state of a terminal that reports 11 rows and 39 columns, after `Init` and one
window-change signal: a buffer of 12 x 40 cells, `Size = 4`, `Space = 2`. -/
def sizeFourTerminal : State :=
  Resize (Init initialState 11 39) 11 39

/-! ## Machine integers -/

theorem toInt_eq_self (n : Int) (h1 : -2 ^ 31 ≤ n) (h2 : n < 2 ^ 31) : toInt n = n := by
  unfold toInt
  omega

theorem toSizeT_eq_self (n : Int) (h1 : 0 ≤ n) (h2 : n < 2 ^ 64) : toSizeT n = n := by
  unfold toSizeT
  omega

theorem tdiv_neg_arg (x k : Int) (h : x < 0) (hk : 0 ≤ k) : Int.tdiv x k = -((-x) / k) := by
  have h1 : Int.tdiv (-(-x)) k = -(Int.tdiv (-x) k) := Int.neg_tdiv (-x) k
  rw [neg_neg] at h1
  rw [h1, Int.tdiv_eq_ediv (by omega) hk]

theorem tmod_two (x : Int) : Int.tmod x 2 = if 0 ≤ x then x % 2 else -((-x) % 2) := by
  split
  · rename_i h
    exact Int.tmod_eq_emod h (by decide)
  · rename_i h
    rw [Int.tmod_def, tdiv_neg_arg x 2 (by omega) (by decide)]
    omega

theorem tdiv_two (x : Int) (h : 0 ≤ x) : Int.tdiv x 2 = x / 2 :=
  Int.tdiv_eq_ediv h (by decide)

/-! ## The buffer: `GET_INDEX`, `SetBlock`, `ClearScreen` -/

theorem index_lt (Rows Columns r c : Nat) (hr : r < Rows) (hc : c < Columns) :
    c + r * Columns < Rows * Columns := by
  have h : (r + 1) * Columns ≤ Rows * Columns := Nat.mul_le_mul_right _ hr
  rw [Nat.add_mul] at h
  omega

theorem index_inj (Columns r c r1 c1 : Nat) (hc : c < Columns) (hc1 : c1 < Columns)
    (h : c + r * Columns = c1 + r1 * Columns) : r = r1 ∧ c = c1 := by
  have hpos : 0 < Columns := by omega
  have e1 : (c + r * Columns) / Columns = r := by
    rw [Nat.add_mul_div_right _ _ hpos, Nat.div_eq_of_lt hc]; simp
  have e2 : (c1 + r1 * Columns) / Columns = r1 := by
    rw [Nat.add_mul_div_right _ _ hpos, Nat.div_eq_of_lt hc1]; simp
  have hr : r = r1 := by rw [← e1, ← e2, h]
  subst hr
  exact ⟨rfl, by omega⟩

theorem SetBlock_outside (st : State) (b : Block) (r c : Int)
    (h : r < 0 ∨ (st.Rows : Int) ≤ r ∨ c < 0 ∨ (st.Columns : Int) ≤ c) :
    SetBlock st b r c = some st := by
  unfold SetBlock
  rw [if_pos h]

/-- Inside the bounds, and when the slot index fits an `int`, `SetBlock` stores the
tone at the slot `c + r * Columns`. -/
theorem SetBlock_inside (st : State) (hw : st.wellFormed) (b : Block) (r c : Nat)
    (hr : r < st.Rows) (hc : c < st.Columns) (hi : c + r * st.Columns < 2 ^ 31) :
    SetBlock st b r c = some { st with Screen := st.Screen.set (c + r * st.Columns) b } := by
  have hlt := index_lt st.Rows st.Columns r c hr hc
  have hidx : toInt (GET_INDEX st.Columns r c) = ((c + r * st.Columns : Nat) : Int) := by
    unfold GET_INDEX
    have e : (c : Int) + (r : Int) * (st.Columns : Int) = ((c + r * st.Columns : Nat) : Int) := by
      push_cast; ring
    rw [e, toSizeT_eq_self _ (by omega) (by omega), toInt_eq_self _ (by omega) (by omega)]
  unfold SetBlock
  rw [if_neg (by omega)]
  simp only [hidx, Int.toNat_ofNat]
  rw [if_pos]
  refine ⟨by omega, ?_⟩
  rw [hw.1]
  exact hlt

/-- Inside the bounds, a slot index of `2 ^ 31` or more does not fit the `int`
variable `Index`: the store is outside the buffer, whatever the buffer holds. -/
theorem SetBlock_overflow (st : State) (b : Block) (r c : Nat)
    (hr : r < st.Rows) (hc : c < st.Columns)
    (hi : 2 ^ 31 ≤ c + r * st.Columns) (hi2 : c + r * st.Columns < 2 ^ 32) :
    SetBlock st b r c = none := by
  have hidx : toInt (GET_INDEX st.Columns r c) < 0 := by
    unfold GET_INDEX
    have e : (c : Int) + (r : Int) * (st.Columns : Int) = ((c + r * st.Columns : Nat) : Int) := by
      push_cast; ring
    rw [e, toSizeT_eq_self _ (by omega) (by omega)]
    unfold toInt
    omega
  unfold SetBlock
  rw [if_neg (by omega)]
  simp only []
  rw [if_neg (by omega)]

theorem cell_set (st : State) (b : Block) (r c r1 c1 : Nat)
    (hc : c < st.Columns) (hc1 : c1 < st.Columns)
    (hlen : c + r * st.Columns < st.Screen.length) :
    State.cell { st with Screen := st.Screen.set (c + r * st.Columns) b } r1 c1
      = if r1 = r ∧ c1 = c then b else st.cell r1 c1 := by
  unfold State.cell
  by_cases h : c + r * st.Columns = c1 + r1 * st.Columns
  · have hrc := index_inj st.Columns r c r1 c1 hc hc1 h
    rw [if_pos ⟨hrc.1.symm, hrc.2.symm⟩, ← h]
    simp [List.getD_eq_getElem?_getD, List.getElem?_set, hlen]
  · have hne : ¬ (r1 = r ∧ c1 = c) := by
      rintro ⟨rfl, rfl⟩
      exact h rfl
    rw [if_neg hne]
    simp [List.getD_eq_getElem?_getD, List.getElem?_set, h]

theorem cell_replicate (st : State) (n : Nat) (b : Block) (r c : Nat)
    (h : c + r * st.Columns < n) :
    State.cell { st with Screen := List.replicate n b } r c = b := by
  unfold State.cell
  simp [List.getD_eq_getElem?_getD, List.getElem?_replicate, h]

/-- What `SetBlock` does to a buffer of at most `2 ^ 31` cells, for every pair
`(r, c)`: the cell `(r, c)` takes the tone when it exists, nothing else moves. -/
theorem SetBlock_effect (st : State) (hw : st.wellFormed)
    (ha : st.Rows * st.Columns ≤ 2 ^ 31) (b : Block) (r c : Int) :
    ∃ st1, SetBlock st b r c = some st1 ∧ st1.Rows = st.Rows ∧ st1.Columns = st.Columns
      ∧ st1.Size = st.Size ∧ st1.Space = st.Space ∧ st1.wellFormed
      ∧ ∀ r1 c1 : Nat, r1 < st.Rows → c1 < st.Columns →
          st1.cell r1 c1 = if (r1 : Int) = r ∧ (c1 : Int) = c then b else st.cell r1 c1 := by
  by_cases h : r < 0 ∨ (st.Rows : Int) ≤ r ∨ c < 0 ∨ (st.Columns : Int) ≤ c
  · refine ⟨st, SetBlock_outside st b r c h, rfl, rfl, rfl, rfl, hw, ?_⟩
    intro r1 c1 hr1 hc1
    rw [if_neg]
    omega
  · obtain ⟨rn, rfl⟩ := Int.eq_ofNat_of_zero_le (show 0 ≤ r by omega)
    obtain ⟨cn, rfl⟩ := Int.eq_ofNat_of_zero_le (show 0 ≤ c by omega)
    have hr : rn < st.Rows := by omega
    have hc : cn < st.Columns := by omega
    have hlt := index_lt st.Rows st.Columns rn cn hr hc
    refine ⟨_, SetBlock_inside st hw b rn cn hr hc (by omega), rfl, rfl, rfl, rfl, ?_, ?_⟩
    · exact ⟨by simpa using hw.1, hw.2⟩
    · intro r1 c1 _ hc1
      rw [cell_set st b rn cn r1 c1 hc hc1 (by rw [hw.1]; exact hlt)]
      simp only [Nat.cast_inj]

/-- The globals other than the buffer content are not touched by `SetBlock`. -/
theorem SetBlock_frame (st st1 : State) (b : Block) (r c : Int)
    (h : SetBlock st b r c = some st1) :
    st1.Rows = st.Rows ∧ st1.Columns = st.Columns ∧ st1.Size = st.Size
      ∧ st1.Space = st.Space ∧ st1.Screen.length = st.Screen.length := by
  unfold SetBlock at h
  split at h
  · cases h
    exact ⟨rfl, rfl, rfl, rfl, rfl⟩
  · simp only [] at h
    split at h
    · cases h
      exact ⟨rfl, rfl, rfl, rfl, by simp⟩
    · cases h

theorem ClearScreen_effect (st : State) (hw : st.wellFormed) :
    ClearScreen st
      = some { st with Screen := List.replicate (st.Rows * st.Columns) Block.BLOCK_WHITE } := by
  obtain ⟨hlen, hlt⟩ := hw
  have e : st.Rows * st.Columns * 4 % 2 ^ 64 / 4 = st.Rows * st.Columns := by omega
  unfold ClearScreen memsetZero
  simp only [e]
  rw [if_pos (by omega)]
  simp [← hlen]

theorem ClearScreen_frame (st st1 : State) (h : ClearScreen st = some st1) :
    st1.Rows = st.Rows ∧ st1.Columns = st.Columns ∧ st1.Size = st.Size
      ∧ st1.Space = st.Space := by
  unfold ClearScreen at h
  cases hm : memsetZero st.Screen (st.Rows * st.Columns * 4 % 2 ^ 64) with
  | none => rw [hm] at h; cases h
  | some s =>
    rw [hm] at h
    cases h
    exact ⟨rfl, rfl, rfl, rfl⟩

/-! ## `Resize` -/

theorem Resize_Rows (st : State) (ws_row ws_col : Nat) :
    (Resize st ws_row ws_col).Rows = ws_row % 65536 + 1 := rfl

theorem Resize_Columns (st : State) (ws_row ws_col : Nat) :
    (Resize st ws_row ws_col).Columns = ws_col % 65536 + 1 := rfl

theorem Resize_Size (st : State) (ws_row ws_col : Nat) :
    (Resize st ws_row ws_col).Size = (ResizeLayout (ws_col % 65536 + 1) st.Space).1 := rfl

theorem Resize_Space (st : State) (ws_row ws_col : Nat) :
    (Resize st ws_row ws_col).Space = (ResizeLayout (ws_col % 65536 + 1) st.Space).2 := rfl

theorem Resize_Screen (st : State) (ws_row ws_col : Nat) :
    (Resize st ws_row ws_col).Screen
      = List.replicate ((ws_row % 65536 + 1) * (ws_col % 65536 + 1)) Block.BLOCK_WHITE := by
  have hb : (ws_row % 65536 + 1) * (ws_col % 65536 + 1) ≤ 65536 * 65536 :=
    Nat.mul_le_mul (by omega) (by omega)
  have e : (ws_row % 65536 + 1) * (ws_col % 65536 + 1) * 4 % 2 ^ 64 / 4
      = (ws_row % 65536 + 1) * (ws_col % 65536 + 1) := by omega
  show List.replicate ((ws_row % 65536 + 1) * (ws_col % 65536 + 1) * 4 % 2 ^ 64 / 4) _ = _
  rw [e]

theorem Resize_wellFormed (st : State) (ws_row ws_col : Nat) :
    (Resize st ws_row ws_col).wellFormed := by
  have hb : (ws_row % 65536 + 1) * (ws_col % 65536 + 1) ≤ 65536 * 65536 :=
    Nat.mul_le_mul (by omega) (by omega)
  unfold State.wellFormed
  rw [Resize_Screen, Resize_Rows, Resize_Columns, List.length_replicate]
  exact ⟨rfl, by omega⟩

theorem ResizeLayout_invariant (Columns : Nat) (Space : Int) :
    (ResizeLayout Columns Space).1 % 2 = 0 ∧ 4 ≤ (ResizeLayout Columns Space).1
    ∧ ((ResizeLayout Columns Space).2 = 2 ∨ (ResizeLayout Columns Space).2 = 4) := by
  simp only [ResizeLayout, tmod_two, toInt, toSizeT, SPACE]
  refine ⟨?_, ?_, ?_⟩
  · split <;> omega
  · omega
  · split <;> omega

/-- The size `Resize` computes when the subtraction does not wrap: the quotient by
6 of `Columns - Space * 5 - 2` with the value `Space` had on entry, rounded
down to even, floored at 4. -/
theorem ResizeLayout_size (Columns : Nat) (Space : Int) (h0 : 0 ≤ Space)
    (h1 : Space * 5 + 2 ≤ Columns) (h2 : Columns ≤ 65536) :
    (ResizeLayout Columns Space).1 = max (((Columns : Int) - Space * 5 - 2) / 6 / 2 * 2) 4 := by
  have e1 : toSizeT ((Columns : Int) - Space * 5 - 2) = (Columns : Int) - Space * 5 - 2 :=
    toSizeT_eq_self _ (by omega) (by omega)
  have e2 : toInt (((Columns : Int) - Space * 5 - 2) / 6)
      = ((Columns : Int) - Space * 5 - 2) / 6 :=
    toInt_eq_self _ (by omega) (by omega)
  simp only [ResizeLayout, e1, e2, tmod_two]
  rw [if_pos (by omega)]
  omega

theorem ResizeLayout_space (Columns : Nat) (Space : Int)
    (h1 : (ResizeLayout Columns Space).1 * 6 + 2 ≤ Columns) (h2 : Columns ≤ 65536) :
    (ResizeLayout Columns Space).2
      = max (min 4 (((Columns : Int) - (ResizeLayout Columns Space).1 * 6 - 2) / 5) / 2 * 2) 2 := by
  have h4 := (ResizeLayout_invariant Columns Space).2.1
  generalize hS : (ResizeLayout Columns Space).1 = S at h1 h4
  have e1 : toSizeT ((Columns : Int) - S * 6 - 2) = (Columns : Int) - S * 6 - 2 :=
    toSizeT_eq_self _ (by omega) (by omega)
  have e : (ResizeLayout Columns Space).2
      = max (min SPACE (toSizeT ((Columns : Int) - (ResizeLayout Columns Space).1 * 6 - 2) / 5)
          - Int.tmod (min SPACE
              (toSizeT ((Columns : Int) - (ResizeLayout Columns Space).1 * 6 - 2) / 5)) 2) 2 :=
    rfl
  rw [e, hS, e1, tmod_two, SPACE]
  rw [if_pos (by omega)]
  omega

theorem ResizeLayout_fits (Columns : Nat) (Space : Int) (hs : Space = 2 ∨ Space = 4)
    (hc : 34 ≤ Columns) (hc2 : Columns ≤ 65536) :
    ((ResizeLayout Columns Space).2 + (ResizeLayout Columns Space).1) * 5
      + (ResizeLayout Columns Space).1 ≤ Columns := by
  have hsize := ResizeLayout_size Columns Space (by omega) (by omega) hc2
  have hspace := ResizeLayout_space Columns Space (by rw [hsize]; omega) hc2
  rw [hspace, hsize]
  omega

/-- With the constant `SPACE` (4) in `Space` on entry, the size `Resize` computes is
the one of the specification, for every width a terminal can report. -/
theorem ResizeLayout_size_of_SPACE (Columns : Nat) (h2 : Columns ≤ 65536) :
    (ResizeLayout Columns SPACE).1 = specSize Columns := by
  by_cases h : 22 ≤ Columns
  · rw [ResizeLayout_size Columns SPACE (by decide) (by unfold SPACE; omega) h2]
    simp only [specSize, SPACE]
    omega
  · have h3 : Columns < 22 := by omega
    interval_cases Columns <;> decide

theorem Resize_layoutOK (st : State) (ws_row ws_col : Nat) :
    (Resize st ws_row ws_col).layoutOK := by
  have h := ResizeLayout_invariant (ws_col % 65536 + 1) st.Space
  unfold State.layoutOK
  rw [Resize_Size, Resize_Space]
  omega

/-! ## Runs of `SetBlock` calls -/

theorem SetBlocks_frame (b : Block) (ps : List (Int × Int)) :
    ∀ st st1 : State, SetBlocks st b ps = some st1 →
      st1.Rows = st.Rows ∧ st1.Columns = st.Columns ∧ st1.Size = st.Size
        ∧ st1.Space = st.Space ∧ st1.Screen.length = st.Screen.length := by
  induction ps with
  | nil =>
    intro st st1 h
    cases h
    exact ⟨rfl, rfl, rfl, rfl, rfl⟩
  | cons p ps ih =>
    intro st st1 h
    unfold SetBlocks at h
    cases h1 : SetBlock st b p.1 p.2 with
    | none => rw [h1] at h; cases h
    | some s1 =>
      rw [h1] at h
      obtain ⟨a1, a2, a3, a4, a5⟩ := SetBlock_frame st s1 b p.1 p.2 h1
      obtain ⟨b1, b2, b3, b4, b5⟩ := ih s1 st1 h
      exact ⟨b1.trans a1, b2.trans a2, b3.trans a3, b4.trans a4, b5.trans a5⟩

/-- A run of `SetBlock` calls on a buffer of at most `2 ^ 31` cells: every cell of
the buffer that is in the run takes the tone, the others keep theirs. -/
theorem SetBlocks_effect (b : Block) (ps : List (Int × Int)) :
    ∀ st : State, st.wellFormed → st.Rows * st.Columns ≤ 2 ^ 31 →
    ∃ st1, SetBlocks st b ps = some st1 ∧ st1.Rows = st.Rows ∧ st1.Columns = st.Columns
      ∧ st1.Size = st.Size ∧ st1.Space = st.Space ∧ st1.wellFormed
      ∧ ∀ r1 c1 : Nat, r1 < st.Rows → c1 < st.Columns →
          st1.cell r1 c1 = if ((r1 : Int), (c1 : Int)) ∈ ps then b else st.cell r1 c1 := by
  induction ps with
  | nil =>
    intro st hw _
    exact ⟨st, rfl, rfl, rfl, rfl, rfl, hw, by simp⟩
  | cons p ps ih =>
    intro st hw ha
    obtain ⟨s1, e1, hR, hC, hS, hP, hw1, hcell1⟩ := SetBlock_effect st hw ha b p.1 p.2
    obtain ⟨s2, e2, hR2, hC2, hS2, hP2, hw2, hcell2⟩ := ih s1 hw1 (by rw [hR, hC]; exact ha)
    refine ⟨s2, ?_, by rw [hR2, hR], by rw [hC2, hC], by rw [hS2, hS], by rw [hP2, hP], hw2, ?_⟩
    · simp [SetBlocks, e1, e2]
    · intro r1 c1 hr1 hc1
      rw [hcell2 r1 c1 (by rw [hR]; exact hr1) (by rw [hC]; exact hc1), hcell1 r1 c1 hr1 hc1]
      by_cases hm : ((r1 : Int), (c1 : Int)) ∈ ps
      · simp [hm]
      · by_cases hp : ((r1 : Int), (c1 : Int)) = p
        · subst hp; simp
        · have : ¬ ((r1 : Int) = p.1 ∧ (c1 : Int) = p.2) := by
            rintro ⟨h1, h2⟩; exact hp (Prod.ext h1 h2)
          simp [hm, hp, this]

/-- A run that contains a cell inside the bounds whose slot index does not fit an
`int` does not complete: some store of the run is outside the buffer. -/
theorem SetBlocks_overflow (b : Block) (r c : Nat) (ps : List (Int × Int)) :
    ∀ st : State, ((r : Int), (c : Int)) ∈ ps → r < st.Rows → c < st.Columns →
      2 ^ 31 ≤ c + r * st.Columns → c + r * st.Columns < 2 ^ 32 →
      SetBlocks st b ps = none := by
  induction ps with
  | nil =>
    intro st hm
    cases hm
  | cons p ps ih =>
    intro st hm hr hc hi hi2
    unfold SetBlocks
    cases h1 : SetBlock st b p.1 p.2 with
    | none => rfl
    | some s1 =>
      obtain ⟨a1, a2, _, _, _⟩ := SetBlock_frame st s1 b p.1 p.2 h1
      rcases List.mem_cons.mp hm with hp | hp
      · rw [← hp] at h1
        rw [SetBlock_overflow st b r c hr hc hi hi2] at h1
        cases h1
      · exact ih s1 hp (by rw [a1]; exact hr) (by rw [a2]; exact hc)
          (by rw [a2]; exact hi) (by rw [a2]; exact hi2)

/-! ## `DrawSegment` and `DrawNumber` -/

theorem mask_bit (v k : Nat) (hv : v < 10) (hk : k < 7) :
    (Numbers.getD v 0 &&& (1 <<< k) = 0) ↔ ¬ ((Numbers.getD v 0).testBit k = true) := by
  revert k
  revert v
  decide

theorem mask_ne_zero (v : Nat) (hv : v < 10) : Numbers.getD v 0 ≠ 0 := by
  revert v
  decide

/-- The inner loop of `DrawSegment` for the stroke `k` writes exactly the stroke `k`
of the specification, when the size is even. -/
theorem mem_StrokeCells (k : Nat) (hk : k < 7) (r c Size : Int) (hs : 0 ≤ Size)
    (he : Size % 2 = 0) (p : Int × Int) :
    p ∈ StrokeCells k r c Size ↔ onStroke k r c Size p := by
  obtain ⟨p1, p2⟩ := p
  have ht : Int.tdiv Size 2 = Size / 2 := tdiv_two Size hs
  interval_cases k <;>
    simp [StrokeCells, Segments, onStroke, ht, List.mem_map, List.mem_range] <;>
    constructor
  all_goals first
    | (rintro ⟨j, hj, rfl, rfl⟩; omega)
    | (rintro ⟨h1, h2, h3⟩
       first
         | exact ⟨(p2 - c).toNat, by omega, by omega, by omega⟩
         | exact ⟨(p1 - r).toNat, by omega, by omega, by omega⟩
         | exact ⟨(p1 - r - Size / 2).toNat, by omega, by omega, by omega⟩)

/-- The cells `DrawSegment` passes to `SetBlock` for a digit are the cells of its
glyph. -/
theorem mem_DrawSegmentCells (v : Nat) (hv : v < 10) (r c Size : Int) (hs : 0 ≤ Size)
    (he : Size % 2 = 0) (p : Int × Int) :
    p ∈ DrawSegmentCells v r c Size ↔ inGlyph v r c Size p := by
  have hclamp : (max (min (v : Int) 9) 0).toNat = v := by omega
  unfold DrawSegmentCells inGlyph
  simp only [hclamp]
  rw [if_neg (mask_ne_zero v hv)]
  simp only [List.mem_flatMap, List.mem_range]
  constructor
  · rintro ⟨k, hk, hmem⟩
    by_cases hb : Numbers.getD v 0 &&& (1 <<< k) = 0
    · rw [if_pos hb] at hmem
      simp at hmem
    · rw [if_neg hb] at hmem
      exact ⟨k, hk, by simpa using (mask_bit v k hv hk).not.mp hb,
        (mem_StrokeCells k hk r c Size hs he p).mp hmem⟩
  · rintro ⟨k, hk, hbit, hon⟩
    have hb : ¬ (Numbers.getD v 0 &&& (1 <<< k) = 0) := by
      rw [mask_bit v k hv hk]
      simpa using hbit
    refine ⟨k, hk, ?_⟩
    rw [if_neg hb]
    exact (mem_StrokeCells k hk r c Size hs he p).mpr hon

/-- A glyph stays inside its bounding box: rows `row..row+size`, columns
`col..col+size`. -/
theorem inGlyph_box (v : Nat) (row col size : Int) (hs : 0 ≤ size) (p : Int × Int)
    (h : inGlyph v row col size p) :
    row ≤ p.1 ∧ p.1 ≤ row + size ∧ col ≤ p.2 ∧ p.2 ≤ col + size := by
  obtain ⟨k, _, _, hon⟩ := h
  unfold onStroke at hon
  omega

theorem DrawSegment_frame (st st1 : State) (Num r c Size : Int) (b : Block)
    (h : DrawSegment st Num r c Size b = some st1) :
    st1.Rows = st.Rows ∧ st1.Columns = st.Columns ∧ st1.Size = st.Size
      ∧ st1.Space = st.Space ∧ st1.Screen.length = st.Screen.length :=
  SetBlocks_frame b _ st st1 h

/-- The function `DrawNumber` as two glyphs drawn with the layout of the state it
starts from. -/
theorem DrawNumber_eq (st : State) (Num r c : Int) (b : Block) :
    DrawNumber st Num r c b
      = (DrawSegment st (Int.tdiv Num 10) r c st.Size b).bind fun st1 =>
          DrawSegment st1 (Int.tmod Num 10) r (c + st.Size + st.Space) st.Size b := by
  show (DrawSegment st (Int.tdiv Num 10) r c st.Size b).bind
      (fun st1 => DrawSegment st1 (Int.tmod Num 10) r (c + st1.Size + st1.Space) st1.Size b) = _
  cases h : DrawSegment st (Int.tdiv Num 10) r c st.Size b with
  | none => rfl
  | some s1 =>
    obtain ⟨_, _, hS, hP, _⟩ := DrawSegment_frame st s1 _ r c st.Size b h
    simp only [Option.some_bind, hS, hP]

theorem DrawNumber_frame (st st1 : State) (Num r c : Int) (b : Block)
    (h : DrawNumber st Num r c b = some st1) :
    st1.Rows = st.Rows ∧ st1.Columns = st.Columns ∧ st1.Size = st.Size
      ∧ st1.Space = st.Space ∧ st1.Screen.length = st.Screen.length := by
  rw [DrawNumber_eq] at h
  cases h1 : DrawSegment st (Int.tdiv Num 10) r c st.Size b with
  | none => rw [h1] at h; cases h
  | some s1 =>
    rw [h1] at h
    obtain ⟨a1, a2, a3, a4, a5⟩ := DrawSegment_frame st s1 _ r c st.Size b h1
    obtain ⟨b1, b2, b3, b4, b5⟩ := DrawSegment_frame s1 st1 _ r _ st.Size b h
    exact ⟨b1.trans a1, b2.trans a2, b3.trans a3, b4.trans a4, b5.trans a5⟩

/-! ## The loop of `main` -/

theorem mainFrame_frame (st st1 : State) (tm_hour tm_min tm_sec : Int)
    (h : mainFrame st tm_hour tm_min tm_sec = some st1) :
    st1.Rows = st.Rows ∧ st1.Columns = st.Columns ∧ st1.Size = st.Size
      ∧ st1.Space = st.Space := by
  unfold mainFrame at h
  simp only [Option.bind_eq_some] at h
  obtain ⟨s0, h0, s1, h1, s2, h2, s3, h3, s4, h4, s5, h5, s6, h6, h7⟩ := h
  have f0 := ClearScreen_frame st s0 h0
  have f1 := DrawNumber_frame s0 s1 _ _ _ _ h1
  have f2 := SetBlock_frame s1 s2 _ _ _ h2
  have f3 := SetBlock_frame s2 s3 _ _ _ h3
  have f4 := DrawNumber_frame s3 s4 _ _ _ _ h4
  have f5 := SetBlock_frame s4 s5 _ _ _ h5
  have f6 := SetBlock_frame s5 s6 _ _ _ h6
  have f7 := DrawNumber_frame s6 st1 _ _ _ _ h7
  refine ⟨?_, ?_, ?_, ?_⟩
  · rw [f7.1, f6.1, f5.1, f4.1, f3.1, f2.1, f1.1, f0.1]
  · rw [f7.2.1, f6.2.1, f5.2.1, f4.2.1, f3.2.1, f2.2.1, f1.2.1, f0.2.1]
  · rw [f7.2.2.1, f6.2.2.1, f5.2.2.1, f4.2.2.1, f3.2.2.1, f2.2.2.1, f1.2.2.1, f0.2.2.1]
  · rw [f7.2.2.2.1, f6.2.2.2.1, f5.2.2.2.1, f4.2.2.2.1, f3.2.2.2.1, f2.2.2.2.1, f1.2.2.2.1,
      f0.2.2.2]

theorem Running_layoutOK (st : State) (h : Running st) : st.layoutOK := by
  induction h with
  | init ws_row ws_col => exact Resize_layoutOK initialState ws_row ws_col
  | resize st ws_row ws_col _ _ => exact Resize_layoutOK st ws_row ws_col
  | frame st st1 tm_hour tm_min tm_sec _ hf ih =>
    obtain ⟨_, _, hS, hP⟩ := mainFrame_frame st st1 tm_hour tm_min tm_sec hf
    unfold State.layoutOK at ih ⊢
    rw [hS, hP]
    exact ih

/-! ## The frame of one pass of the loop -/

/-- The effect of `DrawSegment` on a buffer of at most `2 ^ 31` cells: the cells of
the glyph that are in the buffer take the tone, the others keep theirs. -/
theorem DrawSegment_effect (st : State) (hw : st.wellFormed)
    (ha : st.Rows * st.Columns ≤ 2 ^ 31) (v : Nat) (hv : v < 10) (r c Size : Int)
    (hs : 0 ≤ Size) (he : Size % 2 = 0) (b : Block) :
    ∃ st1, DrawSegment st v r c Size b = some st1 ∧ st1.Rows = st.Rows
      ∧ st1.Columns = st.Columns ∧ st1.Size = st.Size ∧ st1.Space = st.Space
      ∧ st1.wellFormed
      ∧ ∀ r1 c1 : Nat, r1 < st.Rows → c1 < st.Columns →
          st1.cell r1 c1
            = if inGlyph v r c Size ((r1 : Int), (c1 : Int)) then b else st.cell r1 c1 := by
  obtain ⟨s1, e1, hR, hC, hS, hP, hw1, hcell⟩ :=
    SetBlocks_effect b (DrawSegmentCells v r c Size) st hw ha
  refine ⟨s1, e1, hR, hC, hS, hP, hw1, ?_⟩
  intro r1 c1 hr1 hc1
  rw [hcell r1 c1 hr1 hc1]
  have hiff := mem_DrawSegmentCells v hv r c Size hs he ((r1 : Int), (c1 : Int))
  by_cases hm : inGlyph v r c Size ((r1 : Int), (c1 : Int))
  · rw [if_pos hm, if_pos (hiff.mpr hm)]
  · rw [if_neg hm, if_neg (fun h => hm (hiff.mp h))]

theorem tdiv_ten (n : Nat) : Int.tdiv (n : Int) 10 = ((n / 10 : Nat) : Int) := by
  rw [Int.tdiv_eq_ediv (by omega) (by decide)]
  omega

theorem tmod_ten (n : Nat) : Int.tmod (n : Int) 10 = ((n % 10 : Nat) : Int) := by
  rw [Int.tmod_eq_emod (by omega) (by decide)]
  omega

/-- The effect of `DrawNumber` on a buffer of at most `2 ^ 31` cells: the cells of
the two-digit group that are in the buffer take the tone. -/
theorem DrawNumber_effect (st : State) (hw : st.wellFormed)
    (ha : st.Rows * st.Columns ≤ 2 ^ 31) (hs : 0 ≤ st.Size) (he : st.Size % 2 = 0)
    (n : Nat) (hn : n ≤ 99) (r c : Int) (b : Block) :
    ∃ st1, DrawNumber st n r c b = some st1 ∧ st1.Rows = st.Rows
      ∧ st1.Columns = st.Columns ∧ st1.Size = st.Size ∧ st1.Space = st.Space
      ∧ st1.wellFormed
      ∧ ∀ r1 c1 : Nat, r1 < st.Rows → c1 < st.Columns →
          st1.cell r1 c1
            = if inGroup n r c st.Size st.Space ((r1 : Int), (c1 : Int)) then b
              else st.cell r1 c1 := by
  obtain ⟨s1, e1, hR, hC, hS, hP, hw1, hcell1⟩ :=
    DrawSegment_effect st hw ha (n / 10) (by omega) r c st.Size hs he b
  obtain ⟨s2, e2, hR2, hC2, hS2, hP2, hw2, hcell2⟩ :=
    DrawSegment_effect s1 hw1 (by rw [hR, hC]; exact ha) (n % 10) (by omega) r
      (c + st.Size + st.Space) st.Size hs he b
  refine ⟨s2, ?_, hR2.trans hR, hC2.trans hC, hS2.trans hS, hP2.trans hP, hw2, ?_⟩
  · rw [DrawNumber_eq, tdiv_ten, tmod_ten, e1]
    exact e2
  · intro r1 c1 hr1 hc1
    rw [hcell2 r1 c1 (by rw [hR]; exact hr1) (by rw [hC]; exact hc1), hcell1 r1 c1 hr1 hc1]
    unfold inGroup
    by_cases h1 : inGlyph (n / 10) r c st.Size ((r1 : Int), (c1 : Int)) <;>
      by_cases h2 : inGlyph (n % 10) r (c + st.Size + st.Space) st.Size
        ((r1 : Int), (c1 : Int)) <;>
      simp [h1, h2]

/-- A two-digit group stays inside its bounding box. -/
theorem inGroup_box (n : Nat) (row col Size Space : Int) (hs : 0 ≤ Size) (hp : 0 ≤ Space)
    (p : Int × Int) (h : inGroup n row col Size Space p) :
    row ≤ p.1 ∧ p.1 ≤ row + Size ∧ col ≤ p.2 ∧ p.2 ≤ col + Size + Space + Size := by
  rcases h with h | h
  · have := inGlyph_box _ row col Size hs p h
    omega
  · have := inGlyph_box _ row (col + Size + Space) Size hs p h
    omega

/-- The function `ClearScreen` on a buffer with dimensions `Rows x Columns`: it
returns, touches no other global, and every cell is `BLOCK_WHITE` afterwards. -/
theorem ClearScreen_spec (st : State) (hw : st.wellFormed) :
    ∃ s0, ClearScreen st = some s0 ∧ s0.Rows = st.Rows ∧ s0.Columns = st.Columns
      ∧ s0.Size = st.Size ∧ s0.Space = st.Space ∧ s0.wellFormed
      ∧ ∀ r c : Nat, r < st.Rows → c < st.Columns → s0.cell r c = Block.BLOCK_WHITE := by
  refine ⟨_, ClearScreen_effect st hw, rfl, rfl, rfl, rfl, ?_, ?_⟩
  · exact ⟨List.length_replicate _ _, hw.2⟩
  · intro r c hr hc
    exact cell_replicate st _ _ r c (index_lt st.Rows st.Columns r c hr hc)

/-- The offsets of `main` when the layout fits the buffer: no wrap, no truncation. -/
theorem Offsets_of_fits (st : State) (ha : st.Rows * st.Columns ≤ 2 ^ 31)
    (h4 : 4 ≤ st.Size) (hp : 2 ≤ st.Space)
    (hfx : TotalX st ≤ st.Columns) (hfy : st.Size ≤ st.Rows) :
    OffsetX st = ((st.Columns : Int) - ((st.Space + st.Size) * 5 + st.Size)) / 2
    ∧ OffsetY st = ((st.Rows : Int) - st.Size) / 2 := by
  unfold TotalX at hfx
  have hC1 : 1 ≤ st.Columns := by omega
  have hR1 : 1 ≤ st.Rows := by omega
  have hC : st.Columns ≤ 2 ^ 31 :=
    le_trans (Nat.le_mul_of_pos_left st.Columns hR1) ha
  have hR : st.Rows ≤ 2 ^ 31 :=
    le_trans (Nat.le_mul_of_pos_right st.Rows hC1) ha
  constructor
  · unfold OffsetX TotalX
    rw [toSizeT_eq_self _ (by omega) (by omega), toInt_eq_self _ (by omega) (by omega)]
  · unfold OffsetY
    rw [toSizeT_eq_self _ (by omega) (by omega), toInt_eq_self _ (by omega) (by omega)]

/-- The tone the draw calls of `main` leave in a cell (the last call that writes
it decides) is the tone of the frame of the specification: the groups and the
separator cells do not overlap, so the order of the calls does not matter. -/
theorem paint_order (Y X Sz Sp : Int) (hz : 0 ≤ Sz) (hp2 : 2 ≤ Sp) (hpe : Sp % 2 = 0)
    (h m s : Nat) (p1 p2 : Int) :
    (if inGroup s Y (X + 4 * (Sp + Sz)) Sz Sp (p1, p2) then Block.BLOCK_LIGHT_GREY
      else if p1 = Y + Sz - 3 ∧ p2 = X + 4 * (Sp + Sz) - Sp / 2 then Block.BLOCK_BLACK
      else if p1 = Y + 3 ∧ p2 = X + 4 * (Sp + Sz) - Sp / 2 then Block.BLOCK_BLACK
      else if inGroup m Y (X + 2 * (Sp + Sz)) Sz Sp (p1, p2) then Block.BLOCK_GREY
      else if p1 = Y + Sz - 3 ∧ p2 = X + 2 * (Sp + Sz) - Sp / 2 then Block.BLOCK_BLACK
      else if p1 = Y + 3 ∧ p2 = X + 2 * (Sp + Sz) - Sp / 2 then Block.BLOCK_BLACK
      else if inGroup h Y X Sz Sp (p1, p2) then Block.BLOCK_DARK_GREY
      else Block.BLOCK_WHITE)
    = (if inGroup h Y X Sz Sp (p1, p2) then Block.BLOCK_DARK_GREY
      else if inGroup m Y (X + 2 * (Sp + Sz)) Sz Sp (p1, p2) then Block.BLOCK_GREY
      else if inGroup s Y (X + 4 * (Sp + Sz)) Sz Sp (p1, p2) then Block.BLOCK_LIGHT_GREY
      else if isSeparator Y X Sz Sp (p1, p2) then Block.BLOCK_BLACK
      else Block.BLOCK_WHITE) := by
  by_cases gh : inGroup h Y X Sz Sp (p1, p2)
  · have bh := inGroup_box h Y X Sz Sp hz (by omega) _ gh
    have ngm : ¬ inGroup m Y (X + 2 * (Sp + Sz)) Sz Sp (p1, p2) := by
      intro g
      have := inGroup_box m Y _ Sz Sp hz (by omega) _ g
      omega
    have ngs : ¬ inGroup s Y (X + 4 * (Sp + Sz)) Sz Sp (p1, p2) := by
      intro g
      have := inGroup_box s Y _ Sz Sp hz (by omega) _ g
      omega
    have n1 : ¬ (p1 = Y + 3 ∧ p2 = X + 2 * (Sp + Sz) - Sp / 2) := by omega
    have n2 : ¬ (p1 = Y + Sz - 3 ∧ p2 = X + 2 * (Sp + Sz) - Sp / 2) := by omega
    have n3 : ¬ (p1 = Y + 3 ∧ p2 = X + 4 * (Sp + Sz) - Sp / 2) := by omega
    have n4 : ¬ (p1 = Y + Sz - 3 ∧ p2 = X + 4 * (Sp + Sz) - Sp / 2) := by omega
    simp only [if_pos gh, if_neg ngm, if_neg ngs, if_neg n1, if_neg n2, if_neg n3, if_neg n4]
  · by_cases gm : inGroup m Y (X + 2 * (Sp + Sz)) Sz Sp (p1, p2)
    · have bm := inGroup_box m Y _ Sz Sp hz (by omega) _ gm
      have ngs : ¬ inGroup s Y (X + 4 * (Sp + Sz)) Sz Sp (p1, p2) := by
        intro g
        have := inGroup_box s Y _ Sz Sp hz (by omega) _ g
        omega
      have n3 : ¬ (p1 = Y + 3 ∧ p2 = X + 4 * (Sp + Sz) - Sp / 2) := by omega
      have n4 : ¬ (p1 = Y + Sz - 3 ∧ p2 = X + 4 * (Sp + Sz) - Sp / 2) := by omega
      simp only [if_neg gh, if_pos gm, if_neg ngs, if_neg n3, if_neg n4]
    · by_cases gs : inGroup s Y (X + 4 * (Sp + Sz)) Sz Sp (p1, p2)
      · simp only [if_neg gh, if_neg gm, if_pos gs]
      · simp only [if_neg gh, if_neg gm, if_neg gs]
        unfold isSeparator
        split_ifs <;> first | rfl | (exfalso; omega)

/-- The frame `main` draws on a buffer of at most `2 ^ 31` cells in which the
layout fits, for a layout that satisfies the invariant: it returns, and every
cell of the buffer holds the tone the frame of the specification gives it,
whatever the buffer held before. -/
theorem mainFrame_effect (st : State) (hw : st.wellFormed)
    (ha : st.Rows * st.Columns ≤ 2 ^ 31) (hl : st.layoutOK)
    (hfx : TotalX st ≤ st.Columns) (hfy : st.Size ≤ st.Rows)
    (h m s : Nat) (hh : h ≤ 23) (hm : m ≤ 59) (hs : s ≤ 59) :
    ∃ st1, mainFrame st h m s = some st1 ∧ st1.Rows = st.Rows ∧ st1.Columns = st.Columns
      ∧ st1.Size = st.Size ∧ st1.Space = st.Space
      ∧ ∀ r c : Nat, r < st.Rows → c < st.Columns →
          st1.cell r c
            = specFrame st.Rows st.Columns st.Size st.Space h m s ((r : Int), (c : Int)) := by
  obtain ⟨he, h4, hpe, hp2⟩ := hl
  obtain ⟨s0, hc0, hR0, hC0, hS0, hP0, hw0, hcell0⟩ := ClearScreen_spec st hw
  have ha0 : s0.Rows * s0.Columns ≤ 2 ^ 31 := by rw [hR0, hC0]; exact ha
  obtain ⟨hX, hY⟩ := Offsets_of_fits s0 ha0 (by rw [hS0]; exact h4) (by rw [hP0]; exact hp2)
    (by unfold TotalX at hfx ⊢; rw [hS0, hP0, hC0]; exact hfx) (by rw [hS0, hR0]; exact hfy)
  rw [hS0, hP0, hC0] at hX
  rw [hS0, hR0] at hY
  obtain ⟨s1, e1, hR1, hC1, hS1, hP1, hw1, hcell1⟩ :=
    DrawNumber_effect s0 hw0 ha0 (by omega) (by omega) h (by omega) (OffsetY s0) (OffsetX s0)
      Block.BLOCK_DARK_GREY
  have ha1 : s1.Rows * s1.Columns ≤ 2 ^ 31 := by rw [hR1, hC1]; exact ha0
  obtain ⟨s2, e2, hR2, hC2, hS2, hP2, hw2, hcell2⟩ :=
    SetBlock_effect s1 hw1 ha1 Block.BLOCK_BLACK (OffsetY s0 + 3)
      (OffsetX s0 + (s1.Space + s1.Size) * 2 - Int.tdiv s1.Space 2)
  have ha2 : s2.Rows * s2.Columns ≤ 2 ^ 31 := by rw [hR2, hC2]; exact ha1
  obtain ⟨s3, e3, hR3, hC3, hS3, hP3, hw3, hcell3⟩ :=
    SetBlock_effect s2 hw2 ha2 Block.BLOCK_BLACK (OffsetY s0 + s2.Size - 3)
      (OffsetX s0 + (s2.Space + s2.Size) * 2 - Int.tdiv s2.Space 2)
  have ha3 : s3.Rows * s3.Columns ≤ 2 ^ 31 := by rw [hR3, hC3]; exact ha2
  have hS3t : s3.Size = st.Size := by rw [hS3, hS2, hS1, hS0]
  have hP3t : s3.Space = st.Space := by rw [hP3, hP2, hP1, hP0]
  obtain ⟨s4, e4, hR4, hC4, hS4, hP4, hw4, hcell4⟩ :=
    DrawNumber_effect s3 hw3 ha3 (by omega) (by omega) m (by omega) (OffsetY s0)
      (OffsetX s0 + (s3.Space + s3.Size) * 2) Block.BLOCK_GREY
  have ha4 : s4.Rows * s4.Columns ≤ 2 ^ 31 := by rw [hR4, hC4]; exact ha3
  obtain ⟨s5, e5, hR5, hC5, hS5, hP5, hw5, hcell5⟩ :=
    SetBlock_effect s4 hw4 ha4 Block.BLOCK_BLACK (OffsetY s0 + 3)
      (OffsetX s0 + (s4.Space + s4.Size) * 4 - Int.tdiv s4.Space 2)
  have ha5 : s5.Rows * s5.Columns ≤ 2 ^ 31 := by rw [hR5, hC5]; exact ha4
  obtain ⟨s6, e6, hR6, hC6, hS6, hP6, hw6, hcell6⟩ :=
    SetBlock_effect s5 hw5 ha5 Block.BLOCK_BLACK (OffsetY s0 + s5.Size - 3)
      (OffsetX s0 + (s5.Space + s5.Size) * 4 - Int.tdiv s5.Space 2)
  have ha6 : s6.Rows * s6.Columns ≤ 2 ^ 31 := by rw [hR6, hC6]; exact ha5
  have hS6t : s6.Size = st.Size := by rw [hS6, hS5, hS4, hS3t]
  have hP6t : s6.Space = st.Space := by rw [hP6, hP5, hP4, hP3t]
  obtain ⟨s7, e7, hR7, hC7, hS7, hP7, hw7, hcell7⟩ :=
    DrawNumber_effect s6 hw6 ha6 (by omega) (by omega) s (by omega) (OffsetY s0)
      (OffsetX s0 + (s6.Space + s6.Size) * 4) Block.BLOCK_LIGHT_GREY
  refine ⟨s7, ?_, ?_, ?_, hS7.trans hS6t, hP7.trans hP6t, ?_⟩
  · unfold mainFrame
    rw [hc0]
    simp only [Option.some_bind]
    rw [e1]
    simp only [Option.some_bind]
    rw [e2]
    simp only [Option.some_bind]
    rw [e3]
    simp only [Option.some_bind]
    rw [e4]
    simp only [Option.some_bind]
    rw [e5]
    simp only [Option.some_bind]
    rw [e6]
    simp only [Option.some_bind]
    exact e7
  · rw [hR7, hR6, hR5, hR4, hR3, hR2, hR1, hR0]
  · rw [hC7, hC6, hC5, hC4, hC3, hC2, hC1, hC0]
  · intro r c hr hc
    have q1 : r < s0.Rows := by rw [hR0]; exact hr
    have q2 : c < s0.Columns := by rw [hC0]; exact hc
    have q3 : r < s1.Rows := by rw [hR1]; exact q1
    have q4 : c < s1.Columns := by rw [hC1]; exact q2
    have q5 : r < s2.Rows := by rw [hR2]; exact q3
    have q6 : c < s2.Columns := by rw [hC2]; exact q4
    have q7 : r < s3.Rows := by rw [hR3]; exact q5
    have q8 : c < s3.Columns := by rw [hC3]; exact q6
    have q9 : r < s4.Rows := by rw [hR4]; exact q7
    have q10 : c < s4.Columns := by rw [hC4]; exact q8
    have q11 : r < s5.Rows := by rw [hR5]; exact q9
    have q12 : c < s5.Columns := by rw [hC5]; exact q10
    have q13 : r < s6.Rows := by rw [hR6]; exact q11
    have q14 : c < s6.Columns := by rw [hC6]; exact q12
    rw [hcell7 r c q13 q14, hcell6 r c q11 q12, hcell5 r c q9 q10, hcell4 r c q7 q8,
      hcell3 r c q5 q6, hcell2 r c q3 q4, hcell1 r c q1 q2, hcell0 r c hr hc]
    have t1 : s1.Size = st.Size := by rw [hS1, hS0]
    have t2 : s2.Size = st.Size := by rw [hS2, t1]
    have t4 : s4.Size = st.Size := by rw [hS4, hS3t]
    have t5 : s5.Size = st.Size := by rw [hS5, t4]
    have u1 : s1.Space = st.Space := by rw [hP1, hP0]
    have u2 : s2.Space = st.Space := by rw [hP2, u1]
    have u4 : s4.Space = st.Space := by rw [hP4, hP3t]
    have u5 : s5.Space = st.Space := by rw [hP5, u4]
    rw [t1, t2, t4, t5, u1, u2, u4, u5, hS3t, hP3t, hS6t, hP6t, hS0, hP0, hX, hY,
      tdiv_two st.Space (by omega)]
    have k2 : ∀ X : Int, X + (st.Space + st.Size) * 2 = X + 2 * (st.Space + st.Size) := by
      intro X; ring
    have k4 : ∀ X : Int, X + (st.Space + st.Size) * 4 = X + 4 * (st.Space + st.Size) := by
      intro X; ring
    rw [k2, k4]
    exact paint_order _ _ st.Size st.Space (by omega) hp2 hpe h m s r c

/-- The frame of 09:05:07 on a terminal of 39 columns and 11 rows, after one
window change: `mainFrame_effect` applies. -/
theorem mainFrame_effect_at_09_05_07 :
    ∃ st1, mainFrame (Resize (Init initialState 11 39) 11 39) 9 5 7 = some st1
      ∧ ∀ r c : Nat, r < 12 → c < 40 →
          st1.cell r c = specFrame 12 40 4 2 9 5 7 ((r : Int), (c : Int)) := by
  have hS : (Resize (Init initialState 11 39) 11 39).Size = 4 := by decide
  have hP : (Resize (Init initialState 11 39) 11 39).Space = 2 := by decide
  obtain ⟨st1, e, _, _, _, _, hcell⟩ :=
    mainFrame_effect (Resize (Init initialState 11 39) 11 39) (Resize_wellFormed _ _ _)
      (by decide) (Resize_layoutOK _ _ _) (by unfold TotalX; rw [hS, hP]; decide)
      (by rw [hS]; decide) 9 5 7 (by decide) (by decide) (by decide)
  refine ⟨st1, e, ?_⟩
  intro r c hr hc
  have h := hcell r c hr hc
  rw [hS, hP] at h
  exact h

/-! ## The spacing computed by `Resize` -/

theorem ResizeLayout_space_unfold (Columns : Nat) (Space : Int) :
    (ResizeLayout Columns Space).2
      = max (min SPACE (toSizeT ((Columns : Int) - (ResizeLayout Columns Space).1 * 6 - 2) / 5)
          - Int.tmod (min SPACE
              (toSizeT ((Columns : Int) - (ResizeLayout Columns Space).1 * 6 - 2) / 5)) 2) 2 :=
  rfl

/-- When the subtraction `Columns - Size * 6 - 2` does not wrap, the spacing `Resize`
computes is the one of the specification. -/
theorem ResizeLayout_space_wide (Columns : Nat) (Space : Int)
    (h1 : (ResizeLayout Columns Space).1 * 6 + 2 ≤ Columns) (h2 : Columns ≤ 65536) :
    (ResizeLayout Columns Space).2 = specSpace Columns (ResizeLayout Columns Space).1 := by
  rw [ResizeLayout_space Columns Space h1 h2]
  generalize (ResizeLayout Columns Space).1 = S at h1
  simp only [specSpace]
  rw [Int.tdiv_eq_ediv (by omega) (by decide)]
  omega

/-- When `Columns < Size * 6 + 2` the subtraction wraps to a value close to `2 ^ 64`:
`Resize` computes the spacing 4, where the signed formula gives 2. -/
theorem ResizeLayout_space_narrow (Columns : Nat) (Space : Int)
    (h1 : (Columns : Int) < (ResizeLayout Columns Space).1 * 6 + 2)
    (h2 : (ResizeLayout Columns Space).1 < 2 ^ 31) :
    (ResizeLayout Columns Space).2 = 4
    ∧ specSpace Columns (ResizeLayout Columns Space).1 = 2 := by
  have h4 := (ResizeLayout_invariant Columns Space).2.1
  rw [ResizeLayout_space_unfold]
  generalize (ResizeLayout Columns Space).1 = S at h1 h2 h4
  constructor
  · have e1 : toSizeT ((Columns : Int) - S * 6 - 2) = (Columns : Int) - S * 6 - 2 + 2 ^ 64 := by
      unfold toSizeT
      omega
    rw [e1, tmod_two, SPACE]
    rw [if_pos (by omega)]
    omega
  · simp only [specSpace]
    rw [tdiv_neg_arg _ 5 (by omega) (by decide)]
    omega

/-! ## Strokes as runs, clamping -/

theorem rowRun_length (r c : Int) (n : Nat) : (rowRun r c n).length = n := by
  simp [rowRun]

theorem columnRun_length (r c : Int) (n : Nat) : (columnRun r c n).length = n := by
  simp [columnRun]

theorem rowRun_nodup (r c : Int) (n : Nat) : (rowRun r c n).Nodup := by
  unfold rowRun
  refine List.Nodup.map ?_ (List.nodup_range n)
  intro a b h
  simp only [Prod.mk.injEq, true_and] at h
  omega

theorem columnRun_nodup (r c : Int) (n : Nat) : (columnRun r c n).Nodup := by
  unfold columnRun
  refine List.Nodup.map ?_ (List.nodup_range n)
  intro a b h
  simp only [Prod.mk.injEq, and_true] at h
  omega

/-- The seven inner loops of `DrawSegment` as runs: the horizontal strokes are runs
of `Size + 1` cells, the vertical ones runs of `Size / 2 + 1` cells. -/
theorem StrokeCells_runs (r c Size : Int) (hs : 0 ≤ Size) :
    StrokeCells 0 r c Size = rowRun r c (Size + 1).toNat
    ∧ StrokeCells 1 r c Size = rowRun (r + Size / 2) c (Size + 1).toNat
    ∧ StrokeCells 2 r c Size = rowRun (r + Size) c (Size + 1).toNat
    ∧ StrokeCells 3 r c Size = columnRun r c (Size / 2 + 1).toNat
    ∧ StrokeCells 4 r c Size = columnRun (r + Size / 2) c (Size / 2 + 1).toNat
    ∧ StrokeCells 5 r c Size = columnRun r (c + Size) (Size / 2 + 1).toNat
    ∧ StrokeCells 6 r c Size = columnRun (r + Size / 2) (c + Size) (Size / 2 + 1).toNat := by
  have ht : Int.tdiv Size 2 = Size / 2 := tdiv_two Size hs
  refine ⟨?_, ?_, ?_, ?_, ?_, ?_, ?_⟩ <;>
    simp [StrokeCells, Segments, rowRun, columnRun, ht, add_assoc]

/-- The cells of a digit, stroke after stroke: the strokes whose bit is set in the
mask, in the order of the bits. -/
theorem DrawSegmentCells_strokes (v : Nat) (hv : v < 10) (r c Size : Int) :
    DrawSegmentCells v r c Size
      = (List.range 7).flatMap fun i =>
          if (Numbers.getD v 0).testBit i = true then StrokeCells i r c Size else [] := by
  have hclamp : (max (min (v : Int) 9) 0).toNat = v := by omega
  unfold DrawSegmentCells
  simp only [hclamp]
  rw [if_neg (mask_ne_zero v hv)]
  have h7 : List.range 7 = [0, 1, 2, 3, 4, 5, 6] := by decide
  rw [h7]
  simp only [List.flatMap_cons, List.flatMap_nil]
  have hb : ∀ k, k < 7 → (if Numbers.getD v 0 &&& 1 <<< k = 0 then []
      else StrokeCells k r c Size)
      = (if (Numbers.getD v 0).testBit k = true then StrokeCells k r c Size else []) := by
    intro k hk
    by_cases hz : Numbers.getD v 0 &&& 1 <<< k = 0
    · rw [if_pos hz, if_neg ((mask_bit v k hv hk).mp hz)]
    · rw [if_neg hz, if_pos (by
        by_contra hn
        exact hz ((mask_bit v k hv hk).mpr hn))]
  rw [hb 0 (by decide), hb 1 (by decide), hb 2 (by decide), hb 3 (by decide),
    hb 4 (by decide), hb 5 (by decide), hb 6 (by decide)]

/-- The value `DrawSegment` receives only matters through its clamp to `[0, 9]`. -/
theorem DrawSegmentCells_clamp (v r c Size : Int) :
    DrawSegmentCells v r c Size = DrawSegmentCells (max (min v 9) 0) r c Size := by
  have h : max (min (max (min v 9) 0) 9) 0 = max (min v 9) 0 := by omega
  unfold DrawSegmentCells
  simp only [h]

/-! ## The columns a glyph writes -/

theorem mask_has_left (v : Nat) (hv : v < 10) :
    (Numbers.getD v 0).testBit 0 = true ∨ (Numbers.getD v 0).testBit 1 = true
      ∨ (Numbers.getD v 0).testBit 3 = true := by
  revert v
  decide

theorem mask_has_right (v : Nat) (hv : v < 10) (h1 : v ≠ 1) :
    (Numbers.getD v 0).testBit 0 = true ∨ (Numbers.getD v 0).testBit 1 = true := by
  revert v
  decide

/-- Every digit writes a cell in the leftmost column of its slot. -/
theorem glyph_leftmost (v : Nat) (hv : v < 10) (r c Size : Int) (hs : 0 ≤ Size)
    (he : Size % 2 = 0) : isLeftmostColumn (DrawSegmentCells v r c Size) c := by
  constructor
  · rcases mask_has_left v hv with h | h | h
    · refine ⟨(r, c), ?_, rfl⟩
      rw [mem_DrawSegmentCells v hv r c Size hs he]
      exact ⟨0, by decide, h, Or.inl ⟨rfl, rfl, le_refl _, by simp only; omega⟩⟩
    · refine ⟨(r + Size / 2, c), ?_, rfl⟩
      rw [mem_DrawSegmentCells v hv r c Size hs he]
      exact ⟨1, by decide, h, Or.inr (Or.inl ⟨rfl, rfl, le_refl _, by simp only; omega⟩)⟩
    · refine ⟨(r, c), ?_, rfl⟩
      rw [mem_DrawSegmentCells v hv r c Size hs he]
      exact ⟨3, by decide, h,
        Or.inr (Or.inr (Or.inr (Or.inl ⟨rfl, rfl, le_refl _, by simp only; omega⟩)))⟩
  · intro p hp
    rw [mem_DrawSegmentCells v hv r c Size hs he] at hp
    exact (inGlyph_box v r c Size hs p hp).2.2.1

/-- Every digit other than 1 writes a cell in the rightmost column of its slot. -/
theorem glyph_rightmost (v : Nat) (hv : v < 10) (h1 : v ≠ 1) (r c Size : Int)
    (hs : 0 ≤ Size) (he : Size % 2 = 0) :
    isRightmostColumn (DrawSegmentCells v r c Size) (c + Size) := by
  constructor
  · rcases mask_has_right v hv h1 with h | h
    · refine ⟨(r, c + Size), ?_, rfl⟩
      rw [mem_DrawSegmentCells v hv r c Size hs he]
      exact ⟨0, by decide, h, Or.inl ⟨rfl, rfl, by simp only; omega, le_refl _⟩⟩
    · refine ⟨(r + Size / 2, c + Size), ?_, rfl⟩
      rw [mem_DrawSegmentCells v hv r c Size hs he]
      exact ⟨1, by decide, h, Or.inr (Or.inl ⟨rfl, rfl, by simp only; omega, le_refl _⟩)⟩
  · intro p hp
    rw [mem_DrawSegmentCells v hv r c Size hs he] at hp
    exact (inGlyph_box v r c Size hs p hp).2.2.2

/-- The digit 1 is drawn with the two left strokes: it writes the leftmost column of
its slot only. -/
theorem glyph_one_rightmost (r c Size : Int) (hs : 0 ≤ Size) (he : Size % 2 = 0) :
    isRightmostColumn (DrawSegmentCells 1 r c Size) c := by
  have hm := mem_DrawSegmentCells 1 (by decide) r c Size hs he
  simp only [Nat.cast_one] at hm
  constructor
  · refine ⟨(r, c), ?_, rfl⟩
    rw [hm]
    exact ⟨3, by decide, by decide,
      Or.inr (Or.inr (Or.inr (Or.inl ⟨rfl, rfl, le_refl _, by simp only; omega⟩)))⟩
  · intro p hp
    rw [hm] at hp
    obtain ⟨k, hk, hbit, hon⟩ := hp
    rw [List.mem_range] at hk
    unfold onStroke at hon
    interval_cases k
    · exact absurd hbit (by decide)
    · exact absurd hbit (by decide)
    · exact absurd hbit (by decide)
    · omega
    · omega
    · exact absurd hbit (by decide)
    · exact absurd hbit (by decide)

/-! ## The window-change path -/

theorem ClearScreen_length (st st1 : State) (h : ClearScreen st = some st1) :
    st1.Screen.length = st.Screen.length := by
  unfold ClearScreen memsetZero at h
  simp only [] at h
  split at h
  · rename_i hle
    simp only [Option.map_some', Option.some.injEq] at h
    rw [← h]
    simp only [List.length_append, List.length_replicate, List.length_drop]
    omega
  · simp at h

theorem mainFrame_length (st st1 : State) (tm_hour tm_min tm_sec : Int)
    (h : mainFrame st tm_hour tm_min tm_sec = some st1) :
    st1.Screen.length = st.Screen.length := by
  unfold mainFrame at h
  simp only [Option.bind_eq_some] at h
  obtain ⟨s0, h0, s1, h1, s2, h2, s3, h3, s4, h4, s5, h5, s6, h6, h7⟩ := h
  have f0 := ClearScreen_length st s0 h0
  have f1 := (DrawNumber_frame s0 s1 _ _ _ _ h1).2.2.2.2
  have f2 := (SetBlock_frame s1 s2 _ _ _ h2).2.2.2.2
  have f3 := (SetBlock_frame s2 s3 _ _ _ h3).2.2.2.2
  have f4 := (DrawNumber_frame s3 s4 _ _ _ _ h4).2.2.2.2
  have f5 := (SetBlock_frame s4 s5 _ _ _ h5).2.2.2.2
  have f6 := (SetBlock_frame s5 s6 _ _ _ h6).2.2.2.2
  have f7 := (DrawNumber_frame s6 st1 _ _ _ _ h7).2.2.2.2
  rw [f7, f6, f5, f4, f3, f2, f1, f0]

/-- The state `Resize` leaves does not depend on the buffer, the dimensions or the
size of the state it starts from: only on the value of `Space`. -/
theorem Resize_congr (st st2 : State) (ws_row ws_col : Nat) (h : st2.Space = st.Space) :
    Resize st2 ws_row ws_col = Resize st ws_row ws_col := by
  unfold Resize
  rw [h]

theorem Resize_all_blank (st : State) (ws_row ws_col : Nat) :
    ∀ b ∈ (Resize st ws_row ws_col).Screen, b = Block.BLOCK_WHITE := by
  intro b hb
  rw [Resize_Screen] at hb
  exact List.eq_of_mem_replicate hb

theorem Resize_cell (st : State) (ws_row ws_col : Nat) (r c : Nat)
    (hr : r < (Resize st ws_row ws_col).Rows) (hc : c < (Resize st ws_row ws_col).Columns) :
    (Resize st ws_row ws_col).cell r c = Block.BLOCK_WHITE := by
  have hlt := index_lt _ _ r c hr hc
  simp only [Resize_Rows, Resize_Columns] at hlt
  unfold State.cell
  rw [Resize_Screen, Resize_Columns]
  simp [List.getD_eq_getElem?_getD, List.getElem?_replicate, hlt]

/-- When `malloc` answers a null pointer, `Resize` does not return: the `memset`
of `Rows * Columns * 4 > 0` bytes is applied to the null pointer. -/
theorem ResizeMalloc_failure (st : State) (ws_row ws_col : Nat) :
    ResizeMalloc st ws_row ws_col none = none := by
  have hb : (ws_row % 65536 + 1) * (ws_col % 65536 + 1) ≤ 65536 * 65536 :=
    Nat.mul_le_mul (by omega) (by omega)
  have hp : 0 < (ws_row % 65536 + 1) * (ws_col % 65536 + 1) :=
    Nat.mul_pos (by omega) (by omega)
  have e : (ws_row % 65536 + 1) * (ws_col % 65536 + 1) * 4 % 2 ^ 64 / 4
      = (ws_row % 65536 + 1) * (ws_col % 65536 + 1) := by omega
  have hm : memsetZero [] ((ws_row % 65536 + 1) * (ws_col % 65536 + 1) * 4 % 2 ^ 64)
      = none := by
    unfold memsetZero
    simp only [e]
    rw [if_neg]
    rw [List.length_nil]
    omega
  unfold ResizeMalloc
  simp only [hm]
  rfl

/-- When `malloc` answers fresh storage, whatever it holds, `Resize` returns the
state of the definition `Resize`. -/
theorem ResizeMalloc_success (st : State) (ws_row ws_col : Nat) (junk : Nat → Block) :
    ResizeMalloc st ws_row ws_col (some junk) = some (Resize st ws_row ws_col) := by
  have hb : (ws_row % 65536 + 1) * (ws_col % 65536 + 1) ≤ 65536 * 65536 :=
    Nat.mul_le_mul (by omega) (by omega)
  have e : (ws_row % 65536 + 1) * (ws_col % 65536 + 1) * 4 % 2 ^ 64 / 4
      = (ws_row % 65536 + 1) * (ws_col % 65536 + 1) := by omega
  have e4 : 4 * (ws_row % 65536 + 1) * (ws_col % 65536 + 1) % 2 ^ 64 / 4
      = (ws_row % 65536 + 1) * (ws_col % 65536 + 1) := by
    rw [Nat.mul_assoc, Nat.mul_comm 4, e]
  have hm : memsetZero ((List.range ((ws_row % 65536 + 1) * (ws_col % 65536 + 1))).map junk)
      ((ws_row % 65536 + 1) * (ws_col % 65536 + 1) * 4 % 2 ^ 64)
      = some (List.replicate ((ws_row % 65536 + 1) * (ws_col % 65536 + 1))
          Block.BLOCK_WHITE) := by
    unfold memsetZero
    simp only [e]
    rw [if_pos (by rw [List.length_map, List.length_range])]
    rw [List.drop_of_length_le (by rw [List.length_map, List.length_range]), List.append_nil]
  unfold ResizeMalloc
  simp only [e4, hm, Option.map_some']
  unfold Resize
  simp only [e]

theorem Handle_SIGWINCH_success (st : State) (ws_row ws_col : Nat) (junk : Nat → Block) :
    Handle st SIGWINCH ws_row ws_col (some junk)
      = some (Control.restart (Resize { st with Screen := [] } ws_row ws_col)) := by
  unfold Handle
  rw [if_pos rfl, ResizeMalloc_success]
  rfl

theorem Handle_SIGWINCH_failure (st : State) (ws_row ws_col : Nat) :
    Handle st SIGWINCH ws_row ws_col none = none := by
  unfold Handle
  rw [if_pos rfl, ResizeMalloc_failure]
  rfl

/-! ## The index kept in an `int`, `DrawFrame` -/

/-- The index `SetBlock` and `DrawFrame` keep in an `int` is the slot
`c + r * Columns` as long as the slot is below `2 ^ 31`. -/
theorem GET_INDEX_int (Columns r c : Nat) (hi : c + r * Columns < 2 ^ 31) :
    toInt (GET_INDEX Columns r c) = ((c + r * Columns : Nat) : Int) := by
  unfold GET_INDEX
  have e : (c : Int) + (r : Int) * (Columns : Int) = ((c + r * Columns : Nat) : Int) := by
    push_cast; ring
  rw [e, toSizeT_eq_self _ (by omega) (by omega), toInt_eq_self _ (by omega) (by omega)]

/-- For a slot from `2 ^ 31` to `2 ^ 32 - 1` the index kept in an `int` is the slot
minus `2 ^ 32`, a negative number. -/
theorem GET_INDEX_int_wrap (Columns r c : Nat) (hi : 2 ^ 31 ≤ c + r * Columns)
    (hi2 : c + r * Columns < 2 ^ 32) :
    toInt (GET_INDEX Columns r c) = ((c + r * Columns : Nat) : Int) - 2 ^ 32 := by
  unfold GET_INDEX
  have e : (c : Int) + (r : Int) * (Columns : Int) = ((c + r * Columns : Nat) : Int) := by
    push_cast; ring
  rw [e, toSizeT_eq_self _ (by omega) (by omega)]
  unfold toInt
  omega

theorem DrawFrameCell_inside (st : State) (hw : st.wellFormed) (r c : Nat)
    (hr : r < st.Rows) (hc : c < st.Columns) (hi : c + r * st.Columns < 2 ^ 31) :
    DrawFrameCell st r c
      = some { r := r, c := c, glyph := Blocks.getD (st.cell r c).value "" } := by
  have hlt := index_lt st.Rows st.Columns r c hr hc
  unfold DrawFrameCell
  simp only [GET_INDEX_int st.Columns r c hi, Int.toNat_ofNat]
  rw [if_pos ⟨by omega, by rw [hw.1]; exact hlt⟩]
  rfl

theorem DrawFrameCell_overflow (st : State) (r c : Nat)
    (hi : 2 ^ 31 ≤ c + r * st.Columns) (hi2 : c + r * st.Columns < 2 ^ 32) :
    DrawFrameCell st r c = none := by
  unfold DrawFrameCell
  simp only [GET_INDEX_int_wrap st.Columns r c hi hi2]
  rw [if_neg (by omega)]

theorem mem_DrawFrameOrder (Rows Columns : Nat) (p : Nat × Nat) :
    p ∈ DrawFrameOrder Rows Columns ↔ p.1 < Rows ∧ p.2 < Columns := by
  obtain ⟨p1, p2⟩ := p
  unfold DrawFrameOrder
  simp only [List.mem_flatMap, List.mem_map, List.mem_range, Prod.mk.injEq]
  constructor
  · rintro ⟨r, hr, c, hc, rfl, rfl⟩
    exact ⟨hr, hc⟩
  · rintro ⟨hr, hc⟩
    exact ⟨p1, hr, p2, hc, rfl, rfl⟩

theorem DrawFrameOrder_length (Rows Columns : Nat) :
    (DrawFrameOrder Rows Columns).length = Rows * Columns := by
  unfold DrawFrameOrder
  induction Rows with
  | zero => simp
  | succ n ih =>
    rw [List.range_succ, List.flatMap_append, List.length_append, ih]
    simp [Nat.succ_mul]

theorem collectOutputs_none (f : Nat × Nat → Option Output) (p : Nat × Nat)
    (ps : List (Nat × Nat)) (hp : p ∈ ps) (hf : f p = none) : collectOutputs f ps = none := by
  induction ps with
  | nil => cases hp
  | cons q qs ih =>
    unfold collectOutputs
    rcases List.mem_cons.mp hp with h | h
    · rw [← h, hf]
      rfl
    · rw [ih h]
      cases f q <;> rfl

theorem collectOutputs_some (f : Nat × Nat → Option Output) (g : Nat × Nat → Output)
    (ps : List (Nat × Nat)) (h : ∀ p ∈ ps, f p = some (g p)) :
    collectOutputs f ps = some (ps.map g) := by
  induction ps with
  | nil => rfl
  | cons q qs ih =>
    unfold collectOutputs
    rw [h q (List.mem_cons_self q qs), ih (fun p hp => h p (List.mem_cons_of_mem q hp))]
    rfl

/-- On a buffer of at most `2 ^ 31` cells `DrawFrame` sends one output per cell, in the
order of `DrawFrameOrder`: the position of the cell and the glyph of its tone. -/
theorem DrawFrame_effect (st : State) (hw : st.wellFormed)
    (ha : st.Rows * st.Columns ≤ 2 ^ 31) :
    DrawFrame st = some ((DrawFrameOrder st.Rows st.Columns).map fun p =>
      { r := p.1, c := p.2, glyph := Blocks.getD (st.cell p.1 p.2).value "" }) := by
  unfold DrawFrame
  apply collectOutputs_some
  intro p hp
  rw [mem_DrawFrameOrder] at hp
  have hlt := index_lt st.Rows st.Columns p.1 p.2 hp.1 hp.2
  exact DrawFrameCell_inside st hw p.1 p.2 hp.1 hp.2 (by omega)

/-- The glyph `DrawFrame` prints for each tone. -/
theorem Blocks_table :
    Blocks.getD Block.BLOCK_WHITE.value "" = " "
    ∧ Blocks.getD Block.BLOCK_LIGHT_GREY.value "" = "░"
    ∧ Blocks.getD Block.BLOCK_GREY.value "" = "▒"
    ∧ Blocks.getD Block.BLOCK_DARK_GREY.value "" = "▓"
    ∧ Blocks.getD Block.BLOCK_BLACK.value "" = "█" := by
  refine ⟨rfl, rfl, rfl, rfl, rfl⟩

/-- The outputs of `DrawFrame` on the sample buffer of 2 rows and 3 columns. -/
theorem DrawFrame_sample :
    DrawFrame sampleState
      = some [⟨0, 0, " "⟩, ⟨0, 1, "▒"⟩, ⟨0, 2, "█"⟩, ⟨1, 0, "▓"⟩, ⟨1, 1, "░"⟩, ⟨1, 2, " "⟩] := by
  decide

/-! ## Glyphs are told apart by their strokes -/

theorem onStroke_privateCell (j k : Nat) (hj : j < 7) (hk : k < 7) (row col size : Int)
    (hs : 4 ≤ size) (he : size % 2 = 0) :
    onStroke j row col size (privateCell k row col size) ↔ j = k := by
  interval_cases k <;> dsimp only [onStroke, privateCell] <;> omega

theorem inGlyph_privateCell (v k : Nat) (hk : k < 7) (row col size : Int)
    (hs : 4 ≤ size) (he : size % 2 = 0) :
    inGlyph v row col size (privateCell k row col size)
      ↔ (Numbers.getD v 0).testBit k = true := by
  unfold inGlyph
  constructor
  · rintro ⟨j, hj, hbit, hon⟩
    rw [List.mem_range] at hj
    rw [onStroke_privateCell j k hj hk row col size hs he] at hon
    rw [← hon]
    exact hbit
  · intro hbit
    exact ⟨k, List.mem_range.mpr hk, hbit,
      (onStroke_privateCell k k hk hk row col size hs he).mpr rfl⟩

theorem masks_differ_all :
    ∀ d1, d1 < 10 → ∀ d2, d2 < 10 → d1 ≠ d2 →
      ∃ k, k < 7 ∧ (Numbers.getD d1 0).testBit k ≠ (Numbers.getD d2 0).testBit k := by
  decide

theorem masks_differ (d1 d2 : Nat) (h1 : d1 < 10) (h2 : d2 < 10) (hne : d1 ≠ d2) :
    ∃ k, k < 7 ∧ (Numbers.getD d1 0).testBit k ≠ (Numbers.getD d2 0).testBit k :=
  masks_differ_all d1 h1 d2 h2 hne

/-! ## The draw calls of a frame as one sequence -/

theorem paint_map (b : Block) (ps : List (Int × Int)) :
    ∀ st : State, paint st (ps.map fun p => (b, p)) = SetBlocks st b ps := by
  induction ps with
  | nil => intro st; rfl
  | cons p ps ih =>
    intro st
    simp only [List.map_cons, paint, SetBlocks]
    cases SetBlock st b p.1 p.2 with
    | none => rfl
    | some s1 => exact ih s1

theorem paint_append (ws1 ws2 : List (Block × (Int × Int))) :
    ∀ st : State, paint st (ws1 ++ ws2) = (paint st ws1).bind fun s1 => paint s1 ws2 := by
  induction ws1 with
  | nil => intro st; rfl
  | cons w ws ih =>
    intro st
    simp only [List.cons_append, paint]
    cases SetBlock st w.1 w.2.1 w.2.2 with
    | none => rfl
    | some s1 => exact ih s1

theorem SetBlocks_append (b : Block) (ps qs : List (Int × Int)) (st : State) :
    SetBlocks st b (ps ++ qs) = (SetBlocks st b ps).bind fun s1 => SetBlocks s1 b qs := by
  rw [← paint_map, List.map_append, paint_append]
  simp only [paint_map]

theorem paint_frame (ws : List (Block × (Int × Int))) :
    ∀ st st1 : State, paint st ws = some st1 →
      st1.Rows = st.Rows ∧ st1.Columns = st.Columns ∧ st1.Size = st.Size
        ∧ st1.Space = st.Space ∧ st1.Screen.length = st.Screen.length := by
  induction ws with
  | nil =>
    intro st st1 h
    cases h
    exact ⟨rfl, rfl, rfl, rfl, rfl⟩
  | cons w ws ih =>
    intro st st1 h
    unfold paint at h
    cases h1 : SetBlock st w.1 w.2.1 w.2.2 with
    | none => rw [h1] at h; cases h
    | some s1 =>
      rw [h1] at h
      obtain ⟨a1, a2, a3, a4, a5⟩ := SetBlock_frame st s1 _ _ _ h1
      obtain ⟨b1, b2, b3, b4, b5⟩ := ih s1 st1 h
      exact ⟨b1.trans a1, b2.trans a2, b3.trans a3, b4.trans a4, b5.trans a5⟩

/-- The function `DrawNumber` is the run of `SetBlock` calls over `DrawNumberCells`. -/
theorem DrawNumber_eq_SetBlocks (st : State) (Num r c : Int) (b : Block) :
    DrawNumber st Num r c b
      = SetBlocks st b (DrawNumberCells Num r c st.Size st.Space) := by
  rw [DrawNumber_eq]
  unfold DrawNumberCells DrawSegment
  rw [SetBlocks_append]


theorem bind_congr_some {α β : Type} (o : Option α) (f g : α → Option β)
    (h : ∀ a, o = some a → f a = g a) : o.bind f = o.bind g := by
  cases o with
  | none => rfl
  | some a => exact h a rfl

/-- One pass of the loop of `main` is `ClearScreen` followed by the sequence of
`SetBlock` calls `frameWrites`, taken with the offsets and the layout of the
cleared state. -/
theorem mainFrame_eq_paint (st : State) (tm_hour tm_min tm_sec : Int) :
    mainFrame st tm_hour tm_min tm_sec
      = (ClearScreen st).bind fun s0 =>
          paint s0 (frameWrites (OffsetY s0) (OffsetX s0) s0.Size s0.Space
            tm_hour tm_min tm_sec) := by
  unfold mainFrame
  apply bind_congr_some
  intro s0 _
  simp only [frameWrites, paint_append, paint_map, Option.bind_assoc, paint, separatorColumn,
    Option.bind_some]
  rw [DrawNumber_eq_SetBlocks]
  apply bind_congr_some
  intro s1 h1
  obtain ⟨_, _, hS1, hP1, _⟩ := SetBlocks_frame _ _ s0 s1 h1
  simp only [hS1, hP1]
  apply bind_congr_some
  intro s2 h2
  obtain ⟨_, _, hS2, hP2, _⟩ := SetBlock_frame s1 s2 _ _ _ h2
  rw [hS1] at hS2
  rw [hP1] at hP2
  simp only [hS2, hP2]
  apply bind_congr_some
  intro s3 h3
  obtain ⟨_, _, hS3, hP3, _⟩ := SetBlock_frame s2 s3 _ _ _ h3
  rw [hS2] at hS3
  rw [hP2] at hP3
  rw [DrawNumber_eq_SetBlocks]
  simp only [hS3, hP3]
  apply bind_congr_some
  intro s4 h4
  obtain ⟨_, _, hS4, hP4, _⟩ := SetBlocks_frame _ _ s3 s4 h4
  rw [hS3] at hS4
  rw [hP3] at hP4
  simp only [hS4, hP4]
  apply bind_congr_some
  intro s5 h5
  obtain ⟨_, _, hS5, hP5, _⟩ := SetBlock_frame s4 s5 _ _ _ h5
  rw [hS4] at hS5
  rw [hP4] at hP5
  simp only [hS5, hP5]
  apply bind_congr_some
  intro s6 h6
  obtain ⟨_, _, hS6, hP6, _⟩ := SetBlock_frame s5 s6 _ _ _ h6
  rw [hS5] at hS6
  rw [hP5] at hP6
  rw [DrawNumber_eq_SetBlocks, hS6, hP6]

/-! ## The tone a cell ends with -/

theorem lastTone_cons (w : Block × (Int × Int)) (ws : List (Block × (Int × Int)))
    (p : Int × Int) :
    lastTone (w :: ws) p
      = match lastTone ws p with
        | some b => some b
        | none => if w.2 = p then some w.1 else none := rfl

theorem lastTone_none_iff (ws : List (Block × (Int × Int))) (p : Int × Int) :
    lastTone ws p = none ↔ ∀ w ∈ ws, w.2 ≠ p := by
  induction ws with
  | nil => simp [lastTone]
  | cons w ws ih =>
    unfold lastTone
    cases h : lastTone ws p with
    | some b =>
      simp only [false_iff, reduceCtorEq]
      intro hall
      have hn : lastTone ws p = none := ih.mpr (fun x hx => hall x (List.mem_cons_of_mem w hx))
      rw [h] at hn
      cases hn
    | none =>
      have hws := ih.mp h
      by_cases hw : w.2 = p
      · simp only [hw, if_true, reduceCtorEq, false_iff]
        intro hall
        exact hall w (List.mem_cons_self w ws) hw
      · simp only [hw, if_false, true_iff]
        intro x hx
        rcases List.mem_cons.mp hx with rfl | hx
        · exact hw
        · exact hws x hx

theorem lastTone_mem (ws : List (Block × (Int × Int))) (p : Int × Int) (b : Block)
    (h : lastTone ws p = some b) : (b, p) ∈ ws := by
  induction ws with
  | nil => simp [lastTone] at h
  | cons w ws ih =>
    unfold lastTone at h
    cases h1 : lastTone ws p with
    | some b1 =>
      rw [h1] at h
      simp only [Option.some.injEq] at h
      subst h
      exact List.mem_cons_of_mem w (ih h1)
    | none =>
      rw [h1] at h
      by_cases hw : w.2 = p
      · simp only [hw, if_true, Option.some.injEq] at h
        have : w = (b, p) := Prod.ext h hw
        rw [this]
        exact List.mem_cons_self _ _
      · simp only [hw, if_false, reduceCtorEq] at h

/-- When no cell is written with two tones, a cell that is written ends with the
tone of any call that writes it. -/
theorem lastTone_of_mem (ws : List (Block × (Int × Int))) (hc : sameToneWrites ws)
    (p : Int × Int) (b : Block) (h : (b, p) ∈ ws) : lastTone ws p = some b := by
  cases h1 : lastTone ws p with
  | none =>
    exact absurd rfl ((lastTone_none_iff ws p).mp h1 (b, p) h)
  | some b1 =>
    have hm := lastTone_mem ws p b1 h1
    have := hc (b1, p) hm (b, p) h rfl
    simp only at this
    rw [this]

/-- When no cell is written with two tones, the tone every cell ends with is the
same for every order of the calls. -/
theorem lastTone_perm (ws ws1 : List (Block × (Int × Int))) (hc : sameToneWrites ws)
    (hp : ws1.Perm ws) (p : Int × Int) : lastTone ws1 p = lastTone ws p := by
  have hc1 : sameToneWrites ws1 := by
    intro w1 h1 w2 h2 he
    exact hc w1 (hp.mem_iff.mp h1) w2 (hp.mem_iff.mp h2) he
  cases h : lastTone ws p with
  | none =>
    rw [lastTone_none_iff] at h ⊢
    intro w hw
    exact h w (hp.mem_iff.mp hw)
  | some b =>
    exact lastTone_of_mem ws1 hc1 p b (hp.mem_iff.mpr (lastTone_mem ws p b h))

/-- A sequence of `SetBlock` calls on a buffer of at most `2 ^ 31` cells: every cell
of the buffer ends with the tone of the last call that writes it, or keeps
its tone when no call does. -/
theorem paint_effect (ws : List (Block × (Int × Int))) :
    ∀ st : State, st.wellFormed → st.Rows * st.Columns ≤ 2 ^ 31 →
    ∃ st1, paint st ws = some st1 ∧ st1.Rows = st.Rows ∧ st1.Columns = st.Columns
      ∧ st1.Size = st.Size ∧ st1.Space = st.Space ∧ st1.wellFormed
      ∧ ∀ r c : Nat, r < st.Rows → c < st.Columns →
          st1.cell r c = (lastTone ws ((r : Int), (c : Int))).getD (st.cell r c) := by
  induction ws with
  | nil =>
    intro st hw _
    exact ⟨st, rfl, rfl, rfl, rfl, rfl, hw, fun _ _ _ _ => rfl⟩
  | cons w ws ih =>
    intro st hw ha
    obtain ⟨s1, e1, hR, hC, hS, hP, hw1, hcell1⟩ := SetBlock_effect st hw ha w.1 w.2.1 w.2.2
    obtain ⟨s2, e2, hR2, hC2, hS2, hP2, hw2, hcell2⟩ := ih s1 hw1 (by rw [hR, hC]; exact ha)
    refine ⟨s2, ?_, hR2.trans hR, hC2.trans hC, hS2.trans hS, hP2.trans hP, hw2, ?_⟩
    · simp only [paint, e1, Option.some_bind]
      exact e2
    · intro r c hr hc
      rw [hcell2 r c (by rw [hR]; exact hr) (by rw [hC]; exact hc), hcell1 r c hr hc]
      rw [lastTone_cons]
      cases lastTone ws ((r : Int), (c : Int)) with
      | some b => rfl
      | none =>
        by_cases hwp : w.2 = ((r : Int), (c : Int))
        · have h1 : (r : Int) = w.2.1 ∧ (c : Int) = w.2.2 := by
            rw [hwp]
            exact ⟨rfl, rfl⟩
          show (if (r : Int) = w.2.1 ∧ (c : Int) = w.2.2 then w.1 else st.cell r c)
            = (if w.2 = ((r : Int), (c : Int)) then some w.1 else none).getD (st.cell r c)
          rw [if_pos hwp, if_pos h1]
          rfl
        · have h1 : ¬ ((r : Int) = w.2.1 ∧ (c : Int) = w.2.2) := by
            rintro ⟨a1, a2⟩
            exact hwp (Prod.ext a1.symm a2.symm)
          show (if (r : Int) = w.2.1 ∧ (c : Int) = w.2.2 then w.1 else st.cell r c)
            = (if w.2 = ((r : Int), (c : Int)) then some w.1 else none).getD (st.cell r c)
          rw [if_neg hwp, if_neg h1]
          rfl

/-- One pass of the loop of `main` on a buffer of at most `2 ^ 31` cells returns, for
every time and every layout; it keeps the dimensions, the layout and the size
of the buffer. -/
theorem mainFrame_total (st : State) (hw : st.wellFormed) (ha : st.Rows * st.Columns ≤ 2 ^ 31)
    (tm_hour tm_min tm_sec : Int) :
    ∃ st1, mainFrame st tm_hour tm_min tm_sec = some st1 ∧ st1.Rows = st.Rows
      ∧ st1.Columns = st.Columns ∧ st1.Size = st.Size ∧ st1.Space = st.Space
      ∧ st1.wellFormed := by
  obtain ⟨s0, h0, hR0, hC0, hS0, hP0, hw0, _⟩ := ClearScreen_spec st hw
  obtain ⟨s1, h1, hR1, hC1, hS1, hP1, hw1, _⟩ :=
    paint_effect (frameWrites (OffsetY s0) (OffsetX s0) s0.Size s0.Space tm_hour tm_min tm_sec)
      s0 hw0 (by rw [hR0, hC0]; exact ha)
  refine ⟨s1, ?_, hR1.trans hR0, hC1.trans hC0, hS1.trans hS0, hP1.trans hP0, hw1⟩
  rw [mainFrame_eq_paint, h0]
  exact h1

/-! ## No overlap within a frame -/

/-- Whatever value it receives, `DrawSegment` writes inside the slot of the glyph:
rows `r .. r + Size`, columns `c .. c + Size`. -/
theorem DrawSegmentCells_box (v r c Size : Int) (hs : 0 ≤ Size) (he : Size % 2 = 0)
    (p : Int × Int) (h : p ∈ DrawSegmentCells v r c Size) :
    r ≤ p.1 ∧ p.1 ≤ r + Size ∧ c ≤ p.2 ∧ p.2 ≤ c + Size := by
  rw [DrawSegmentCells_clamp] at h
  obtain ⟨n, hn⟩ := Int.eq_ofNat_of_zero_le (show 0 ≤ max (min v 9) 0 by omega)
  rw [hn, mem_DrawSegmentCells n (by omega) r c Size hs he] at h
  exact inGlyph_box n r c Size hs p h

theorem DrawNumberCells_box (Num r c Size Space : Int) (hs : 0 ≤ Size) (he : Size % 2 = 0)
    (hp : 0 ≤ Space) (p : Int × Int) (h : p ∈ DrawNumberCells Num r c Size Space) :
    r ≤ p.1 ∧ p.1 ≤ r + Size ∧ c ≤ p.2 ∧ p.2 ≤ c + Size + Space + Size := by
  unfold DrawNumberCells at h
  rcases List.mem_append.mp h with h1 | h1
  · have := DrawSegmentCells_box _ r c Size hs he p h1
    omega
  · have := DrawSegmentCells_box _ r (c + Size + Space) Size hs he p h1
    omega

/-- Groups of cells that lie in column ranges placed one after the other are
pairwise disjoint. -/
theorem pairwise_disjoint_of_columns (gs : List (List (Int × Int) × Int × Int))
    (hin : ∀ g ∈ gs, ∀ p ∈ g.1, g.2.1 ≤ p.2 ∧ p.2 ≤ g.2.2)
    (hs : gs.Pairwise fun g1 g2 => g1.2.2 < g2.2.1) :
    (gs.map Prod.fst).Pairwise fun A B => ∀ p ∈ A, p ∉ B := by
  rw [List.pairwise_map]
  refine hs.imp_of_mem ?_
  intro g1 g2 h1 h2 hlt p hpA hpB
  have a := hin g1 h1 p hpA
  have b := hin g2 h2 p hpB
  omega

theorem separatorColumn_eq (X Size Space k : Int) (hp : 0 ≤ Space) :
    separatorColumn X Size Space k = X + (Space + Size) * k - Space / 2 := by
  unfold separatorColumn
  rw [tdiv_two Space hp]

/-- The eight groups of a frame with the range of columns of each. -/
theorem frameGroups_columns (Y X Size Space tm_hour tm_min tm_sec : Int) (hs : 4 ≤ Size)
    (he : Size % 2 = 0) :
    ∀ g ∈ (frameGroups Y X Size Space tm_hour tm_min tm_sec).zip (groupStarts X Size Space),
      ∀ p ∈ g.1, Y ≤ p.1 ∧ p.1 ≤ Y + Size ∧ g.2 ≤ p.2 ∧ p.2 ≤ g.2 + Size := by
  intro g hg p hp
  simp only [frameGroups, groupStarts, List.zip_cons_cons, List.zip_nil_right, List.mem_cons,
    List.mem_singleton, List.not_mem_nil, or_false] at hg
  rcases hg with rfl | rfl | rfl | rfl | rfl | rfl | rfl | rfl
  · exact DrawSegmentCells_box _ _ _ Size (by omega) he p hp
  · exact DrawSegmentCells_box _ _ _ Size (by omega) he p hp
  · simp only [List.mem_cons, List.mem_singleton, List.not_mem_nil, or_false] at hp
    rcases hp with rfl | rfl <;> simp only <;> omega
  · exact DrawSegmentCells_box _ _ _ Size (by omega) he p hp
  · exact DrawSegmentCells_box _ _ _ Size (by omega) he p hp
  · simp only [List.mem_cons, List.mem_singleton, List.not_mem_nil, or_false] at hp
    rcases hp with rfl | rfl <;> simp only <;> omega
  · exact DrawSegmentCells_box _ _ _ Size (by omega) he p hp
  · exact DrawSegmentCells_box _ _ _ Size (by omega) he p hp


/-- The eight groups of cells of a frame are pairwise disjoint. -/
theorem frameGroups_disjoint (Y X Size Space tm_hour tm_min tm_sec : Int) (hs : 4 ≤ Size)
    (he : Size % 2 = 0) (hp : 2 ≤ Space) (hpe : Space % 2 = 0) :
    (frameGroups Y X Size Space tm_hour tm_min tm_sec).Pairwise
      fun A B => ∀ p ∈ A, p ∉ B := by
  have h2 := separatorColumn_eq X Size Space 2 (by omega)
  have h4 := separatorColumn_eq X Size Space 4 (by omega)
  have key := pairwise_disjoint_of_columns
    [(DrawSegmentCells (Int.tdiv tm_hour 10) Y X Size, X, X + Size),
     (DrawSegmentCells (Int.tmod tm_hour 10) Y (X + Size + Space) Size,
        X + Size + Space, X + Size + Space + Size),
     ([(Y + 3, separatorColumn X Size Space 2), (Y + Size - 3, separatorColumn X Size Space 2)],
        separatorColumn X Size Space 2, separatorColumn X Size Space 2),
     (DrawSegmentCells (Int.tdiv tm_min 10) Y (X + (Space + Size) * 2) Size,
        X + (Space + Size) * 2, X + (Space + Size) * 2 + Size),
     (DrawSegmentCells (Int.tmod tm_min 10) Y (X + (Space + Size) * 2 + Size + Space) Size,
        X + (Space + Size) * 2 + Size + Space, X + (Space + Size) * 2 + Size + Space + Size),
     ([(Y + 3, separatorColumn X Size Space 4), (Y + Size - 3, separatorColumn X Size Space 4)],
        separatorColumn X Size Space 4, separatorColumn X Size Space 4),
     (DrawSegmentCells (Int.tdiv tm_sec 10) Y (X + (Space + Size) * 4) Size,
        X + (Space + Size) * 4, X + (Space + Size) * 4 + Size),
     (DrawSegmentCells (Int.tmod tm_sec 10) Y (X + (Space + Size) * 4 + Size + Space) Size,
        X + (Space + Size) * 4 + Size + Space, X + (Space + Size) * 4 + Size + Space + Size)]
    ?_ ?_
  · exact key
  · intro g hg p hpg
    simp only [List.mem_cons, List.mem_singleton, List.not_mem_nil, or_false] at hg
    rcases hg with rfl | rfl | rfl | rfl | rfl | rfl | rfl | rfl
    · exact (DrawSegmentCells_box _ _ _ Size (by omega) he p hpg).2.2
    · exact (DrawSegmentCells_box _ _ _ Size (by omega) he p hpg).2.2
    · simp only [List.mem_cons, List.mem_singleton, List.not_mem_nil, or_false] at hpg
      rcases hpg with rfl | rfl <;> exact ⟨le_refl _, le_refl _⟩
    · exact (DrawSegmentCells_box _ _ _ Size (by omega) he p hpg).2.2
    · exact (DrawSegmentCells_box _ _ _ Size (by omega) he p hpg).2.2
    · simp only [List.mem_cons, List.mem_singleton, List.not_mem_nil, or_false] at hpg
      rcases hpg with rfl | rfl <;> exact ⟨le_refl _, le_refl _⟩
    · exact (DrawSegmentCells_box _ _ _ Size (by omega) he p hpg).2.2
    · exact (DrawSegmentCells_box _ _ _ Size (by omega) he p hpg).2.2
  · rw [h2, h4]
    simp only [List.pairwise_cons, List.mem_cons, List.mem_singleton, List.not_mem_nil,
      forall_eq_or_imp, or_false, IsEmpty.forall_iff, implies_true, List.Pairwise.nil,
      and_true, forall_eq]
    omega


/-- Every call of a frame, by its tone, falls in the range of columns of its group:
the hours, the first gap, the minutes, the second gap, the seconds. -/
theorem frameWrites_class (Y X Size Space tm_hour tm_min tm_sec : Int) (hs : 4 ≤ Size)
    (he : Size % 2 = 0) (hp : 2 ≤ Space) (w : Block × (Int × Int))
    (hw : w ∈ frameWrites Y X Size Space tm_hour tm_min tm_sec) :
    (w.1 = Block.BLOCK_DARK_GREY ∧ X ≤ w.2.2 ∧ w.2.2 ≤ X + Size + Space + Size)
    ∨ (w.1 = Block.BLOCK_BLACK ∧ w.2.2 = X + (Space + Size) * 2 - Space / 2)
    ∨ (w.1 = Block.BLOCK_GREY ∧ X + (Space + Size) * 2 ≤ w.2.2
        ∧ w.2.2 ≤ X + (Space + Size) * 2 + Size + Space + Size)
    ∨ (w.1 = Block.BLOCK_BLACK ∧ w.2.2 = X + (Space + Size) * 4 - Space / 2)
    ∨ (w.1 = Block.BLOCK_LIGHT_GREY ∧ X + (Space + Size) * 4 ≤ w.2.2
        ∧ w.2.2 ≤ X + (Space + Size) * 4 + Size + Space + Size) := by
  have h2 := separatorColumn_eq X Size Space 2 (by omega)
  have h4 := separatorColumn_eq X Size Space 4 (by omega)
  simp only [frameWrites, List.mem_append, List.mem_map, List.mem_cons, List.mem_singleton,
    List.not_mem_nil, or_false] at hw
  rcases hw with (((⟨p, hpc, rfl⟩ | rfl | rfl) | ⟨p, hpc, rfl⟩) | rfl | rfl) | ⟨p, hpc, rfl⟩
  · have := DrawNumberCells_box _ _ _ Size Space (by omega) he (by omega) p hpc
    exact Or.inl ⟨rfl, this.2.2.1, this.2.2.2⟩
  · exact Or.inr (Or.inl ⟨rfl, h2⟩)
  · exact Or.inr (Or.inl ⟨rfl, h2⟩)
  · have := DrawNumberCells_box _ _ _ Size Space (by omega) he (by omega) p hpc
    exact Or.inr (Or.inr (Or.inl ⟨rfl, this.2.2.1, this.2.2.2⟩))
  · exact Or.inr (Or.inr (Or.inr (Or.inl ⟨rfl, h4⟩)))
  · exact Or.inr (Or.inr (Or.inr (Or.inl ⟨rfl, h4⟩)))
  · have := DrawNumberCells_box _ _ _ Size Space (by omega) he (by omega) p hpc
    exact Or.inr (Or.inr (Or.inr (Or.inr ⟨rfl, this.2.2.1, this.2.2.2⟩)))

/-- No cell of a frame is written with two different tones. -/
theorem frameWrites_sameTone (Y X Size Space tm_hour tm_min tm_sec : Int) (hs : 4 ≤ Size)
    (he : Size % 2 = 0) (hp : 2 ≤ Space) (hpe : Space % 2 = 0) :
    sameToneWrites (frameWrites Y X Size Space tm_hour tm_min tm_sec) := by
  intro w1 h1 w2 h2 heq
  have hcol : w1.2.2 = w2.2.2 := by rw [heq]
  have c1 := frameWrites_class Y X Size Space tm_hour tm_min tm_sec hs he hp w1 h1
  have c2 := frameWrites_class Y X Size Space tm_hour tm_min tm_sec hs he hp w2 h2
  rcases c1 with ⟨t1, a1⟩ | ⟨t1, a1⟩ | ⟨t1, a1⟩ | ⟨t1, a1⟩ | ⟨t1, a1⟩ <;>
    rcases c2 with ⟨t2, a2⟩ | ⟨t2, a2⟩ | ⟨t2, a2⟩ | ⟨t2, a2⟩ | ⟨t2, a2⟩ <;>
    first
      | exact t1.trans t2.symm
      | (exfalso; omega)

/-- On a buffer of at most `2 ^ 31` cells, two orders of a sequence of calls in which
no cell is written with two tones leave the same tone in every cell. -/
theorem paint_perm (st : State) (hw : st.wellFormed) (ha : st.Rows * st.Columns ≤ 2 ^ 31)
    (ws ws1 : List (Block × (Int × Int))) (hc : sameToneWrites ws) (hp : ws1.Perm ws) :
    ∃ s1 s2, paint st ws = some s1 ∧ paint st ws1 = some s2
      ∧ ∀ r c : Nat, r < st.Rows → c < st.Columns → s2.cell r c = s1.cell r c := by
  obtain ⟨s1, e1, _, _, _, _, _, hcell1⟩ := paint_effect ws st hw ha
  obtain ⟨s2, e2, _, _, _, _, _, hcell2⟩ := paint_effect ws1 st hw ha
  refine ⟨s1, s2, e1, e2, ?_⟩
  intro r c hr hcc
  rw [hcell1 r c hr hcc, hcell2 r c hr hcc, lastTone_perm ws ws1 hc hp]


/-- Every call of a frame writes a cell of one of the eight groups. -/
theorem frameWrites_in_groups (Y X Size Space tm_hour tm_min tm_sec : Int)
    (w : Block × (Int × Int)) (hw : w ∈ frameWrites Y X Size Space tm_hour tm_min tm_sec) :
    ∃ g ∈ frameGroups Y X Size Space tm_hour tm_min tm_sec, w.2 ∈ g := by
  simp only [frameWrites, DrawNumberCells, List.mem_append, List.mem_map, List.mem_cons,
    List.mem_singleton, List.not_mem_nil, or_false] at hw
  unfold frameGroups
  rcases hw with (((⟨p, hpc | hpc, rfl⟩ | rfl | rfl) | ⟨p, hpc | hpc, rfl⟩) | rfl | rfl)
    | ⟨p, hpc | hpc, rfl⟩
  · exact ⟨_, List.mem_cons_self _ _, hpc⟩
  · exact ⟨_, List.mem_cons_of_mem _ (List.mem_cons_self _ _), hpc⟩
  · exact ⟨_, List.mem_cons_of_mem _ (List.mem_cons_of_mem _ (List.mem_cons_self _ _)),
      List.mem_cons_self _ _⟩
  · exact ⟨_, List.mem_cons_of_mem _ (List.mem_cons_of_mem _ (List.mem_cons_self _ _)),
      List.mem_cons_of_mem _ (List.mem_cons_self _ _)⟩
  · exact ⟨_, List.mem_cons_of_mem _ (List.mem_cons_of_mem _ (List.mem_cons_of_mem _
      (List.mem_cons_self _ _))), hpc⟩
  · exact ⟨_, List.mem_cons_of_mem _ (List.mem_cons_of_mem _ (List.mem_cons_of_mem _
      (List.mem_cons_of_mem _ (List.mem_cons_self _ _)))), hpc⟩
  · exact ⟨_, List.mem_cons_of_mem _ (List.mem_cons_of_mem _ (List.mem_cons_of_mem _
      (List.mem_cons_of_mem _ (List.mem_cons_of_mem _ (List.mem_cons_self _ _))))),
      List.mem_cons_self _ _⟩
  · exact ⟨_, List.mem_cons_of_mem _ (List.mem_cons_of_mem _ (List.mem_cons_of_mem _
      (List.mem_cons_of_mem _ (List.mem_cons_of_mem _ (List.mem_cons_self _ _))))),
      List.mem_cons_of_mem _ (List.mem_cons_self _ _)⟩
  · exact ⟨_, List.mem_cons_of_mem _ (List.mem_cons_of_mem _ (List.mem_cons_of_mem _
      (List.mem_cons_of_mem _ (List.mem_cons_of_mem _ (List.mem_cons_of_mem _
      (List.mem_cons_self _ _)))))), hpc⟩
  · exact ⟨_, List.mem_cons_of_mem _ (List.mem_cons_of_mem _ (List.mem_cons_of_mem _
      (List.mem_cons_of_mem _ (List.mem_cons_of_mem _ (List.mem_cons_of_mem _
      (List.mem_cons_of_mem _ (List.mem_cons_self _ _))))))), hpc⟩


/-! ## The solid cells of a frame -/

/-- In the frame of the specification the solid cells are the separator cells: a
separator cell lies in no glyph. -/
theorem specFrame_black_iff (Rows Columns : Nat) (Size Space : Int) (h m s : Nat)
    (hz : 4 ≤ Size) (hp2 : 2 ≤ Space) (hpe : Space % 2 = 0) (p : Int × Int) :
    specFrame Rows Columns Size Space h m s p = Block.BLOCK_BLACK
      ↔ isSeparator (((Rows : Int) - Size) / 2)
          (((Columns : Int) - ((Space + Size) * 5 + Size)) / 2) Size Space p := by
  simp only [specFrame]
  generalize ((Columns : Int) - ((Space + Size) * 5 + Size)) / 2 = X
  generalize ((Rows : Int) - Size) / 2 = Y
  by_cases gh : inGroup h Y X Size Space p
  · have b := inGroup_box h Y X Size Space (by omega) (by omega) p gh
    rw [if_pos gh]
    unfold isSeparator
    constructor
    · intro hc; cases hc
    · intro hsep; omega
  · rw [if_neg gh]
    by_cases gm : inGroup m Y (X + 2 * (Space + Size)) Size Space p
    · have b := inGroup_box m Y _ Size Space (by omega) (by omega) p gm
      rw [if_pos gm]
      unfold isSeparator
      constructor
      · intro hc; cases hc
      · intro hsep; omega
    · rw [if_neg gm]
      by_cases gs : inGroup s Y (X + 4 * (Space + Size)) Size Space p
      · have b := inGroup_box s Y _ Size Space (by omega) (by omega) p gs
        rw [if_pos gs]
        unfold isSeparator
        constructor
        · intro hc; cases hc
        · intro hsep; omega
      · rw [if_neg gs]
        by_cases hsep : isSeparator Y X Size Space p
        · rw [if_pos hsep]
          exact ⟨fun _ => hsep, fun _ => rfl⟩
        · rw [if_neg hsep]
          constructor
          · intro hc; cases hc
          · intro h1; exact absurd h1 hsep

theorem card_pair_product (a b c d : Nat) (hcd : c ≠ d) :
    (a ≠ b → ((({a, b} : Finset Nat) ×ˢ ({c, d} : Finset Nat)).card = 4))
    ∧ (a = b → ((({a, b} : Finset Nat) ×ˢ ({c, d} : Finset Nat)).card = 2)) := by
  constructor
  · intro hab
    rw [Finset.card_product, Finset.card_pair hab, Finset.card_pair hcd]
  · intro hab
    subst hab
    rw [Finset.card_product, Finset.pair_eq_singleton, Finset.card_singleton,
      Finset.card_pair hcd]

/-- The separator cells of a layout that fits are inside the buffer. -/
theorem separators_in_buffer (Rows Columns : Nat) (Size Space X Y : Int)
    (hX : X = ((Columns : Int) - ((Space + Size) * 5 + Size)) / 2)
    (hY : Y = ((Rows : Int) - Size) / 2)
    (he : Size % 2 = 0) (h4 : 4 ≤ Size) (hpe : Space % 2 = 0) (hp2 : 2 ≤ Space)
    (hfx : (Space + Size) * 5 + Size ≤ Columns) (hfy : Size ≤ Rows) :
    0 ≤ Y + 3 ∧ Y + 3 < Rows ∧ 0 ≤ Y + Size - 3 ∧ Y + Size - 3 < Rows
      ∧ 0 ≤ X + (Space + Size) * 2 - Space / 2
      ∧ X + (Space + Size) * 2 - Space / 2 < X + (Space + Size) * 4 - Space / 2
      ∧ X + (Space + Size) * 4 - Space / 2 < Columns := by
  subst hX hY
  omega

/-- The cells of a tone, when they are the cells of two rows in two columns of the
buffer. -/
theorem cellsWith_eq_product (st1 : State) (b : Block) (Rows Columns : Nat)
    (hR : st1.Rows = Rows) (hC : st1.Columns = Columns) (y1 y2 x1 x2 : Int)
    (a1 : 0 ≤ y1) (a2 : y1 < Rows) (a3 : 0 ≤ y2) (a4 : y2 < Rows)
    (a5 : 0 ≤ x1) (a6 : x1 < x2) (a7 : x2 < Columns)
    (hiff : ∀ r c : Nat, r < Rows → c < Columns →
      (st1.cell r c = b ↔ ((r : Int) = y1 ∨ (r : Int) = y2) ∧ ((c : Int) = x1 ∨ (c : Int) = x2))) :
    st1.cellsWith b
      = ({y1.toNat, y2.toNat} : Finset Nat) ×ˢ ({x1.toNat, x2.toNat} : Finset Nat) := by
  ext ⟨r, c⟩
  unfold State.cellsWith
  simp only [Finset.mem_filter, Finset.mem_product, Finset.mem_range, Finset.mem_insert,
    Finset.mem_singleton, hR, hC]
  constructor
  · rintro ⟨⟨hr, hc⟩, hb⟩
    have := (hiff r c hr hc).mp hb
    omega
  · intro hmem
    have hr : r < Rows := by omega
    have hc : c < Columns := by omega
    refine ⟨⟨hr, hc⟩, (hiff r c hr hc).mpr ?_⟩
    omega

/-- The solid cells of the frame `main` draws on a buffer of at most `2 ^ 31` cells in
which the layout fits: the cells of the rows `OffsetY + 3` and
`OffsetY + Size - 3` in the two separator columns. The two rows are the same
one exactly when `Size = 6`. -/
theorem mainFrame_solid_cells (st : State) (hw : st.wellFormed)
    (ha : st.Rows * st.Columns ≤ 2 ^ 31) (hl : st.layoutOK)
    (hfx : TotalX st ≤ st.Columns) (hfy : st.Size ≤ st.Rows)
    (h m s : Nat) (hh : h ≤ 23) (hm : m ≤ 59) (hs : s ≤ 59) :
    ∃ st1, mainFrame st h m s = some st1
      ∧ (∀ r c : Nat, r < st.Rows → c < st.Columns →
          (st1.cell r c = Block.BLOCK_BLACK
            ↔ ((r : Int) = OffsetY st + 3 ∨ (r : Int) = OffsetY st + st.Size - 3)
              ∧ ((c : Int) = separatorColumn (OffsetX st) st.Size st.Space 2
                  ∨ (c : Int) = separatorColumn (OffsetX st) st.Size st.Space 4)))
      ∧ (0 ≤ OffsetY st + 3 ∧ OffsetY st + 3 < st.Rows
          ∧ 0 ≤ OffsetY st + st.Size - 3 ∧ OffsetY st + st.Size - 3 < st.Rows
          ∧ 0 ≤ separatorColumn (OffsetX st) st.Size st.Space 2
          ∧ separatorColumn (OffsetX st) st.Size st.Space 2
              < separatorColumn (OffsetX st) st.Size st.Space 4
          ∧ separatorColumn (OffsetX st) st.Size st.Space 4 < st.Columns)
      ∧ st1.cellsWith Block.BLOCK_BLACK
          = ({(OffsetY st + 3).toNat, (OffsetY st + st.Size - 3).toNat} : Finset Nat)
              ×ˢ ({(separatorColumn (OffsetX st) st.Size st.Space 2).toNat,
                    (separatorColumn (OffsetX st) st.Size st.Space 4).toNat} : Finset Nat)
      ∧ (st.Size ≠ 6 → OffsetY st + 3 ≠ OffsetY st + st.Size - 3
          ∧ (st1.cellsWith Block.BLOCK_BLACK).card = 4)
      ∧ (st.Size = 6 → OffsetY st + 3 = OffsetY st + st.Size - 3
          ∧ (st1.cellsWith Block.BLOCK_BLACK).card = 2) := by
  obtain ⟨st1, e, hR, hC, _, _, hcell⟩ := mainFrame_effect st hw ha hl hfx hfy h m s hh hm hs
  obtain ⟨he, h4, hpe, hp2⟩ := hl
  obtain ⟨hX, hY⟩ := Offsets_of_fits st ha h4 hp2 hfx hfy
  have hs2 := separatorColumn_eq (OffsetX st) st.Size st.Space 2 (by omega)
  have hs4 := separatorColumn_eq (OffsetX st) st.Size st.Space 4 (by omega)
  unfold TotalX at hfx
  have hiff : ∀ r c : Nat, r < st.Rows → c < st.Columns →
      (st1.cell r c = Block.BLOCK_BLACK
        ↔ ((r : Int) = OffsetY st + 3 ∨ (r : Int) = OffsetY st + st.Size - 3)
          ∧ ((c : Int) = separatorColumn (OffsetX st) st.Size st.Space 2
              ∨ (c : Int) = separatorColumn (OffsetX st) st.Size st.Space 4)) := by
    intro r c hr hc
    rw [hcell r c hr hc, specFrame_black_iff st.Rows st.Columns st.Size st.Space h m s h4 hp2
      hpe, ← hX, ← hY, hs2, hs4]
    unfold isSeparator
    constructor
    · rintro ⟨a, b⟩
      exact ⟨a, by omega⟩
    · rintro ⟨a, b⟩
      exact ⟨a, by omega⟩
  have hrange : 0 ≤ OffsetY st + 3 ∧ OffsetY st + 3 < st.Rows
      ∧ 0 ≤ OffsetY st + st.Size - 3 ∧ OffsetY st + st.Size - 3 < st.Rows
      ∧ 0 ≤ separatorColumn (OffsetX st) st.Size st.Space 2
      ∧ separatorColumn (OffsetX st) st.Size st.Space 2
          < separatorColumn (OffsetX st) st.Size st.Space 4
      ∧ separatorColumn (OffsetX st) st.Size st.Space 4 < st.Columns := by
    rw [hs2, hs4]
    exact separators_in_buffer st.Rows st.Columns st.Size st.Space (OffsetX st) (OffsetY st)
      hX hY he h4 hpe hp2 hfx hfy
  have hset : st1.cellsWith Block.BLOCK_BLACK
      = ({(OffsetY st + 3).toNat, (OffsetY st + st.Size - 3).toNat} : Finset Nat)
          ×ˢ ({(separatorColumn (OffsetX st) st.Size st.Space 2).toNat,
                (separatorColumn (OffsetX st) st.Size st.Space 4).toNat} : Finset Nat) :=
    cellsWith_eq_product st1 Block.BLOCK_BLACK st.Rows st.Columns hR hC _ _ _ _ hrange.1
      hrange.2.1 hrange.2.2.1 hrange.2.2.2.1 hrange.2.2.2.2.1
      hrange.2.2.2.2.2.1 hrange.2.2.2.2.2.2 hiff
  have hcols : (separatorColumn (OffsetX st) st.Size st.Space 2).toNat
      ≠ (separatorColumn (OffsetX st) st.Size st.Space 4).toNat := by omega
  obtain ⟨k4, k2⟩ := card_pair_product (OffsetY st + 3).toNat (OffsetY st + st.Size - 3).toNat
    _ _ hcols
  refine ⟨st1, e, hiff, hrange, hset, ?_, ?_⟩
  · intro h6
    refine ⟨by omega, ?_⟩
    rw [hset]
    exact k4 (by omega)
  · intro h6
    refine ⟨by omega, ?_⟩
    rw [hset]
    exact k2 (by omega)

theorem hugeTerminal_layout :
    hugeTerminal.Rows = 65536 ∧ hugeTerminal.Columns = 65536
    ∧ hugeTerminal.Size = 10920 ∧ hugeTerminal.Space = 2 := by
  refine ⟨rfl, rfl, by decide, by decide⟩

/-- On the 65536 x 65536 buffer of `hugeTerminal`, at 10:00:00, the upper left
stroke of the hour digit 1 reaches the cell `(32768, 3)`; its slot does not fit
the `int` index of `SetBlock` and the pass of the loop is not defined. -/
theorem mainFrame_hugeTerminal : mainFrame hugeTerminal 10 0 0 = none := by
  have hw : hugeTerminal.wellFormed := Resize_wellFormed _ _ _
  obtain ⟨hR, hC, hS, hP⟩ := hugeTerminal_layout
  obtain ⟨s0, hc0, hR0, hC0, hS0, hP0, _, _⟩ := ClearScreen_spec hugeTerminal hw
  have hY : OffsetY s0 = 27308 := by
    unfold OffsetY
    rw [hR0, hS0, hR, hS]
    decide
  have hX : OffsetX s0 = 3 := by
    unfold OffsetX TotalX
    rw [hC0, hS0, hP0, hC, hS, hP]
    decide
  have hm : (((32768 : Nat) : Int), ((3 : Nat) : Int))
      ∈ DrawSegmentCells (Int.tdiv 10 10) (OffsetY s0) (OffsetX s0) s0.Size := by
    rw [hY, hX, hS0, hS]
    have e : Int.tdiv 10 10 = ((1 : Nat) : Int) := by decide
    rw [e, mem_DrawSegmentCells 1 (by decide) _ _ _ (by decide) (by decide)]
    decide
  have hseg : DrawSegment s0 (Int.tdiv 10 10) (OffsetY s0) (OffsetX s0) s0.Size
      Block.BLOCK_DARK_GREY = none :=
    SetBlocks_overflow Block.BLOCK_DARK_GREY 32768 3 _ s0 hm
      (by rw [hR0, hR]; decide) (by rw [hC0, hC]; decide)
      (by rw [hC0, hC]; decide) (by rw [hC0, hC]; decide)
  have hd : DrawNumber s0 10 (OffsetY s0) (OffsetX s0) Block.BLOCK_DARK_GREY = none := by
    rw [DrawNumber_eq, hseg]
    rfl
  unfold mainFrame
  rw [hc0]
  simp only [Option.some_bind]
  rw [hd]
  rfl

/-- The window-change path when `malloc` succeeds. From every state and for every
report `(ws_row, ws_col)`, `Handle(SIGWINCH)` goes back to the loop with
`Rows = ws_row + 1`, `Columns = ws_col + 1`, a buffer of exactly `Rows * Columns`
cells that are all `BLOCK_WHITE`, and the layout `Resize` computes from the
new `Columns` (and the value `Space` had); nothing else of the old state is
read, and `SetBlock` checks the bounds against the new dimensions. When the
new buffer has at most `2 ^ 31` cells, every in-range `SetBlock` stores at the
slot `c + r * Columns` of the new buffer and the following frame is drawn, at
every time, in a buffer of the new dimensions. -/
theorem Handle_SIGWINCH_effect (st : State) (ws_row ws_col : Nat) (junk : Nat → Block)
    (hr : ws_row < 65536) (hc : ws_col < 65536) :
    ∃ s1, Handle st SIGWINCH ws_row ws_col (some junk) = some (Control.restart s1)
      ∧ s1.Rows = ws_row + 1 ∧ s1.Columns = ws_col + 1
      ∧ s1.Screen.length = s1.Rows * s1.Columns
      ∧ (∀ b ∈ s1.Screen, b = Block.BLOCK_WHITE)
      ∧ (∀ r c : Nat, r < s1.Rows → c < s1.Columns → s1.cell r c = Block.BLOCK_WHITE)
      ∧ (s1.Size, s1.Space) = ResizeLayout s1.Columns st.Space
      ∧ s1.layoutOK
      ∧ (∀ (st2 : State) (junk2 : Nat → Block), st2.Space = st.Space →
          Handle st2 SIGWINCH ws_row ws_col (some junk2) = some (Control.restart s1))
      ∧ (∀ (b : Block) (r c : Int),
          (r < 0 ∨ ((ws_row + 1 : Nat) : Int) ≤ r ∨ c < 0 ∨ ((ws_col + 1 : Nat) : Int) ≤ c) →
          SetBlock s1 b r c = some s1)
      ∧ ((ws_row + 1) * (ws_col + 1) ≤ 2 ^ 31 →
          (∀ (b : Block) (r c : Nat), r < ws_row + 1 → c < ws_col + 1 →
            SetBlock s1 b r c
              = some { s1 with Screen := s1.Screen.set (c + r * (ws_col + 1)) b })
          ∧ ∀ h m s : Int, ∃ s2, mainFrame s1 h m s = some s2
              ∧ s2.Rows = ws_row + 1 ∧ s2.Columns = ws_col + 1
              ∧ s2.Screen.length = (ws_row + 1) * (ws_col + 1)) := by
  have hR : (Resize { st with Screen := [] } ws_row ws_col).Rows = ws_row + 1 := by
    rw [Resize_Rows, Nat.mod_eq_of_lt hr]
  have hC : (Resize { st with Screen := [] } ws_row ws_col).Columns = ws_col + 1 := by
    rw [Resize_Columns, Nat.mod_eq_of_lt hc]
  have hw := Resize_wellFormed { st with Screen := [] } ws_row ws_col
  refine ⟨Resize { st with Screen := [] } ws_row ws_col, Handle_SIGWINCH_success _ _ _ _,
    hR, hC, hw.1, Resize_all_blank _ _ _, ?_, ?_, Resize_layoutOK _ _ _, ?_, ?_, ?_⟩
  · intro r c hr1 hc1
    exact Resize_cell _ _ _ r c hr1 hc1
  · rfl
  · intro st2 junk2 h2
    rw [Handle_SIGWINCH_success]
    exact congrArg (fun x => some (Control.restart x)) (Resize_congr _ _ ws_row ws_col h2)
  · intro b r c hout
    exact SetBlock_outside _ b r c (by rw [hR, hC]; exact hout)
  · intro ha
    constructor
    · intro b r c hr1 hc1
      have hlt := index_lt (ws_row + 1) (ws_col + 1) r c hr1 hc1
      have h := SetBlock_inside _ hw b r c (by rw [hR]; exact hr1) (by rw [hC]; exact hc1)
        (by rw [hC]; omega)
      have e : c + r * (Resize { st with Screen := [] } ws_row ws_col).Columns
          = c + r * (ws_col + 1) := by rw [hC]
      rw [e] at h
      exact h
    · intro h m s
      obtain ⟨s2, hf, f1, f2, _, _, hw2⟩ :=
        mainFrame_total _ hw (by rw [hR, hC]; exact ha) h m s
      refine ⟨s2, hf, f1.trans hR, f2.trans hC, ?_⟩
      rw [hw2.1, f1, f2, hR, hC]

/-! ## The claims -/

/-- C1, evaluated where the code departs from it. A terminal of 65535 rows and
65535 columns gives a buffer of 65536 x 65536 cells. The pair `(32768, 0)` is
inside the bounds and its slot is `2 ^ 31`, but `SetBlock` keeps the index in
an `int`, where it is `-2 ^ 31`: the store is outside the buffer and the cell
does not receive the tone. (`SetBlock_effect` is the claim for buffers of at
most `2 ^ 31` cells.) -/
theorem SetBlock_int_index_overflow :
    hugeTerminal.wellFormed ∧ hugeTerminal.Rows = 65536 ∧ hugeTerminal.Columns = 65536
    ∧ toInt (GET_INDEX hugeTerminal.Columns 32768 0) = -2147483648
    ∧ SetBlock hugeTerminal Block.BLOCK_BLACK 32768 0 = none := by
  refine ⟨Resize_wellFormed _ _ _, rfl, rfl, by decide, ?_⟩
  have h := SetBlock_overflow hugeTerminal Block.BLOCK_BLACK 32768 0
    (by decide) (by decide) (by decide) (by decide)
  simpa only [Nat.cast_ofNat, Nat.cast_zero] using h

/-- C2. Outside the bounds (a negative or too large row or column), `SetBlock`
returns the state it received: the buffer is unchanged, and since this holds
for every buffer, an unallocated one included, no cell is accessed. -/
theorem SetBlock_out_of_range (st : State) (b : Block) (r c : Int)
    (h : r < 0 ∨ (st.Rows : Int) ≤ r ∨ c < 0 ∨ (st.Columns : Int) ≤ c) :
    SetBlock st b r c = some st :=
  SetBlock_outside st b r c h

theorem SetBlock_out_of_range_witness :
    ((-1 : Int) < 0 ∨ (sampleState.Rows : Int) ≤ -1 ∨ (1 : Int) < 0
      ∨ (sampleState.Columns : Int) ≤ 1)
    ∧ SetBlock sampleState Block.BLOCK_BLACK (-1) 1 = some sampleState :=
  ⟨by decide, SetBlock_out_of_range sampleState Block.BLOCK_BLACK (-1) 1 (by decide)⟩

/-- C3. On a buffer with dimensions `Rows x Columns`, whatever it holds,
`ClearScreen` returns and keeps the dimensions and the layout; the buffer it
leaves has exactly `Rows * Columns` cells, it is `Rows * Columns` times
`BLOCK_WHITE`, and for every `(r, c)` with `r < Rows` and `c < Columns` the slot
`c + r * Columns` exists and holds `BLOCK_WHITE`. -/
theorem ClearScreen_all_blank (st : State) (hw : st.wellFormed) :
    ∃ st1, ClearScreen st = some st1 ∧ st1.Rows = st.Rows ∧ st1.Columns = st.Columns
      ∧ st1.Size = st.Size ∧ st1.Space = st.Space
      ∧ st1.wellFormed
      ∧ st1.Screen.length = st.Rows * st.Columns
      ∧ st1.Screen = List.replicate (st.Rows * st.Columns) Block.BLOCK_WHITE
      ∧ (∀ r c : Nat, r < st.Rows → c < st.Columns →
          st1.Screen[c + r * st.Columns]? = some Block.BLOCK_WHITE)
      ∧ ∀ r c : Nat, r < st.Rows → c < st.Columns → st1.cell r c = Block.BLOCK_WHITE := by
  refine ⟨_, ClearScreen_effect st hw, rfl, rfl, rfl, rfl,
    ⟨List.length_replicate _ _, hw.2⟩, List.length_replicate _ _, rfl, ?_, ?_⟩
  · intro r c hr hc
    have hlt := index_lt st.Rows st.Columns r c hr hc
    show (List.replicate (st.Rows * st.Columns) Block.BLOCK_WHITE)[c + r * st.Columns]?
      = some Block.BLOCK_WHITE
    rw [List.getElem?_replicate, if_pos hlt]
  · intro r c hr hc
    exact cell_replicate st _ _ r c (index_lt st.Rows st.Columns r c hr hc)

theorem ClearScreen_all_blank_witness :
    sampleState.wellFormed
    ∧ ∃ st1, ClearScreen sampleState = some st1 ∧ st1.Rows = sampleState.Rows
      ∧ st1.Columns = sampleState.Columns
      ∧ st1.Size = sampleState.Size ∧ st1.Space = sampleState.Space
      ∧ st1.wellFormed
      ∧ st1.Screen.length = sampleState.Rows * sampleState.Columns
      ∧ st1.Screen = List.replicate (sampleState.Rows * sampleState.Columns) Block.BLOCK_WHITE
      ∧ (∀ r c : Nat, r < sampleState.Rows → c < sampleState.Columns →
          st1.Screen[c + r * sampleState.Columns]? = some Block.BLOCK_WHITE)
      ∧ ∀ r c : Nat, r < sampleState.Rows → c < sampleState.Columns →
          st1.cell r c = Block.BLOCK_WHITE :=
  ⟨by decide, ClearScreen_all_blank sampleState (by decide)⟩

/-- C4 as stated fails. After a window change to 20 columns (`Columns = 21`), from
the state `Init` leaves on an 80-column terminal, the layout is `Size = 4`,
`Space = 4`, 44 cells wide. At startup on a terminal of 100 columns
(`Columns = 101`, `Space = 0` on entry) the layout is `Size = 16`, `Space = 2`,
106 cells wide. -/
theorem Resize_exceeds_width :
    ((Resize (Init initialState 24 80) 24 20).Columns = 21
      ∧ (Resize (Init initialState 24 80) 24 20).Size = 4
      ∧ (Resize (Init initialState 24 80) 24 20).Space = 4
      ∧ ¬ (((Resize (Init initialState 24 80) 24 20).Space
            + (Resize (Init initialState 24 80) 24 20).Size) * 5
            + (Resize (Init initialState 24 80) 24 20).Size
          ≤ ((Resize (Init initialState 24 80) 24 20).Columns : Int)))
    ∧ ((Resize initialState 30 100).Columns = 101
      ∧ (Resize initialState 30 100).Size = 16
      ∧ (Resize initialState 30 100).Space = 2
      ∧ ¬ (((Resize initialState 30 100).Space + (Resize initialState 30 100).Size) * 5
            + (Resize initialState 30 100).Size
          ≤ ((Resize initialState 30 100).Columns : Int))) := by
  refine ⟨⟨rfl, by decide, by decide, by decide⟩, ⟨rfl, by decide, by decide, by decide⟩⟩

/-- C4, amended. When `Resize` starts from a state whose `Space` is 2 or 4 (every
state an earlier `Resize` left) and the terminal gives `Columns >= 34`, the
layout it computes satisfies `(Space + Size) * 5 + Size <= Columns`. From any
state and for any width the layout is at least 34 cells wide, so it cannot
fit a narrower terminal. -/
theorem Resize_fits_width (st : State) (ws_row ws_col : Nat)
    (hs : st.Space = 2 ∨ st.Space = 4) (hc : 34 ≤ (Resize st ws_row ws_col).Columns) :
    ((Resize st ws_row ws_col).Space + (Resize st ws_row ws_col).Size) * 5
        + (Resize st ws_row ws_col).Size ≤ ((Resize st ws_row ws_col).Columns : Int)
    ∧ ∀ (st2 : State) (r2 c2 : Nat),
        34 ≤ ((Resize st2 r2 c2).Space + (Resize st2 r2 c2).Size) * 5
          + (Resize st2 r2 c2).Size := by
  constructor
  · rw [Resize_Columns] at hc
    rw [Resize_Space, Resize_Size, Resize_Columns]
    exact ResizeLayout_fits _ _ hs hc (by omega)
  · intro st2 r2 c2
    have h := Resize_layoutOK st2 r2 c2
    unfold State.layoutOK at h
    omega

theorem Resize_fits_width_witness :
    ((Init initialState 24 80).Space = 2 ∨ (Init initialState 24 80).Space = 4)
    ∧ 34 ≤ (Resize (Init initialState 24 80) 24 80).Columns
    ∧ ((Resize (Init initialState 24 80) 24 80).Space
          + (Resize (Init initialState 24 80) 24 80).Size) * 5
        + (Resize (Init initialState 24 80) 24 80).Size
        ≤ ((Resize (Init initialState 24 80) 24 80).Columns : Int) :=
  ⟨by decide, by decide,
    (Resize_fits_width (Init initialState 24 80) 24 80 (by decide) (by decide)).1⟩

/-- C5, evaluated where the code departs from it. On a terminal of 80 columns and
24 rows `Init` leaves `Columns = 81`, `Size = 12` and `Space = 2`: both are
even and large enough, but the layout is `(2 + 12) * 5 + 12 = 82` cells wide,
more than the 80 columns (and more than `Columns`). -/
theorem Init_80x24_layout :
    (Init initialState 24 80).Rows = 25 ∧ (Init initialState 24 80).Columns = 81
    ∧ (Init initialState 24 80).Size = 12 ∧ (Init initialState 24 80).Space = 2
    ∧ ((Init initialState 24 80).Space + (Init initialState 24 80).Size) * 5
        + (Init initialState 24 80).Size = 82
    ∧ ¬ (((Init initialState 24 80).Space + (Init initialState 24 80).Size) * 5
        + (Init initialState 24 80).Size ≤ ((Init initialState 24 80).Columns : Int)) := by
  refine ⟨rfl, rfl, by decide, by decide, by decide, by decide⟩

/-- C6. Whatever the state `Resize` (or `Init`) starts from and whatever the
terminal reports, the layout it leaves has `Size` even and at least 4 and
`Space` even and at least 2; the invariant holds in every state of the render
loop, since drawing a frame does not assign `Size` or `Space`. -/
theorem layout_invariant (st : State) (ws_row ws_col : Nat) :
    (Resize st ws_row ws_col).layoutOK ∧ (Init st ws_row ws_col).layoutOK
    ∧ ∀ s : State, Running s → s.layoutOK :=
  ⟨Resize_layoutOK st ws_row ws_col, Resize_layoutOK st ws_row ws_col, Running_layoutOK⟩

theorem layout_invariant_witness :
    Running (Resize (Init initialState 24 80) 30 100)
    ∧ (Resize (Init initialState 24 80) 30 100).layoutOK :=
  ⟨Running.resize _ 30 100 (Running.init 24 80),
    (layout_invariant initialState 24 80).2.2 _
      (Running.resize _ 30 100 (Running.init 24 80))⟩

/-- C7. For a digit `v` in 0..9 and an even size of at least 4, the cells
`DrawSegment` writes are exactly the cells of the strokes whose bit is set in
`Numbers[v]`, placed as `onStroke` says; every one of them is written with the
tone passed. The glyph of 0 at `(0, 0)` with size 4 is made of the six strokes
other than the middle one, and of the middle row it holds the two end cells
only (shared with the vertical strokes); the glyph of 8 holds the seven
strokes. -/
theorem DrawSegment_writes_strokes (v row col size : Int) (hv0 : 0 ≤ v) (hv9 : v ≤ 9)
    (hs : 4 ≤ size) (he : size % 2 = 0) :
    (∀ p : Int × Int, p ∈ DrawSegmentCells v row col size ↔
        ∃ k ∈ List.range 7, (Numbers.getD v.toNat 0).testBit k = true
          ∧ onStroke k row col size p)
    ∧ (∀ (st : State) (b : Block),
        DrawSegment st v row col size b = SetBlocks st b (DrawSegmentCells v row col size))
    ∧ (∀ p : Int × Int, p ∈ DrawSegmentCells 0 0 0 4 ↔
        onStroke 0 0 0 4 p ∨ onStroke 2 0 0 4 p ∨ onStroke 3 0 0 4 p ∨ onStroke 4 0 0 4 p
          ∨ onStroke 5 0 0 4 p ∨ onStroke 6 0 0 4 p)
    ∧ (∀ p : Int × Int, onStroke 1 0 0 4 p →
        (p ∈ DrawSegmentCells 0 0 0 4 ↔ p = (2, 0) ∨ p = (2, 4)))
    ∧ (∀ k < 7, ∀ p : Int × Int, onStroke k row col size p →
        p ∈ DrawSegmentCells 8 row col size) := by
  obtain ⟨vn, rfl⟩ := Int.eq_ofNat_of_zero_le hv0
  have hvn : vn < 10 := by omega
  have h0 : ∀ p : Int × Int, p ∈ DrawSegmentCells 0 0 0 4 ↔
      onStroke 0 0 0 4 p ∨ onStroke 2 0 0 4 p ∨ onStroke 3 0 0 4 p ∨ onStroke 4 0 0 4 p
        ∨ onStroke 5 0 0 4 p ∨ onStroke 6 0 0 4 p := by
    intro p
    have h := mem_DrawSegmentCells 0 (by decide) 0 0 4 (by decide) (by decide) p
    simp only [Nat.cast_zero] at h
    rw [h]
    unfold inGlyph
    constructor
    · rintro ⟨k, hk, hbit, hon⟩
      rw [List.mem_range] at hk
      interval_cases k
      · exact Or.inl hon
      · exact absurd hbit (by decide)
      · exact Or.inr (Or.inl hon)
      · exact Or.inr (Or.inr (Or.inl hon))
      · exact Or.inr (Or.inr (Or.inr (Or.inl hon)))
      · exact Or.inr (Or.inr (Or.inr (Or.inr (Or.inl hon))))
      · exact Or.inr (Or.inr (Or.inr (Or.inr (Or.inr hon))))
    · rintro (h | h | h | h | h | h)
      · exact ⟨0, by decide, by decide, h⟩
      · exact ⟨2, by decide, by decide, h⟩
      · exact ⟨3, by decide, by decide, h⟩
      · exact ⟨4, by decide, by decide, h⟩
      · exact ⟨5, by decide, by decide, h⟩
      · exact ⟨6, by decide, by decide, h⟩
  refine ⟨?_, fun _ _ => rfl, h0, ?_, ?_⟩
  · intro p
    rw [mem_DrawSegmentCells vn hvn row col size (by omega) he p]
    simp only [Int.toNat_ofNat]
    rfl
  · rintro ⟨p1, p2⟩ hmid
    rw [h0]
    simp [onStroke] at hmid ⊢
    omega
  · intro k hk p hon
    have h := mem_DrawSegmentCells 8 (by decide) row col size (by omega) he p
    simp only [Nat.cast_ofNat] at h
    rw [h]
    refine ⟨k, List.mem_range.mpr hk, ?_, hon⟩
    interval_cases k <;> decide

theorem DrawSegment_writes_strokes_witness :
    (0 : Int) ≤ 0 ∧ (0 : Int) ≤ 9 ∧ (4 : Int) ≤ 4 ∧ (4 : Int) % 2 = 0
    ∧ ∀ p : Int × Int, p ∈ DrawSegmentCells 0 0 0 4 ↔
        ∃ k ∈ List.range 7, (Numbers.getD (0 : Int).toNat 0).testBit k = true
          ∧ onStroke k 0 0 4 p :=
  ⟨by decide, by decide, by decide, by decide,
    (DrawSegment_writes_strokes 0 0 0 4 (by decide) (by decide) (by decide) (by decide)).1⟩

/-- C8, evaluated where the code departs from it. On the 65536 x 65536 buffer of
`hugeTerminal` the layout is `Size = 10920`, `Space = 2`; it satisfies the
invariant and fits the buffer (65530 columns, 10920 rows). At 10:00:00 the
hour group starts at row 27308, column 3; the upper left stroke of the digit
1 reaches the cell `(32768, 3)`, whose slot `3 + 32768 * 65536` does not fit
the `int` index of `SetBlock`. The store is outside the buffer: the frame is
not the one the claim describes. (`mainFrame_effect` is the claim for
buffers of at most `2 ^ 31` cells.) -/
theorem mainFrame_int_index_overflow :
    hugeTerminal.wellFormed ∧ hugeTerminal.layoutOK
    ∧ TotalX hugeTerminal ≤ (hugeTerminal.Columns : Int)
    ∧ hugeTerminal.Size ≤ (hugeTerminal.Rows : Int)
    ∧ mainFrame hugeTerminal 10 0 0 = none := by
  have hw : hugeTerminal.wellFormed := Resize_wellFormed _ _ _
  obtain ⟨hR, hC, hS, hP⟩ := hugeTerminal_layout
  refine ⟨hw, ?_, ?_, ?_, ?_⟩
  · unfold State.layoutOK
    rw [hS, hP]
    decide
  · unfold TotalX
    rw [hS, hP, hC]
    decide
  · rw [hS, hR]
    decide
  · exact mainFrame_hugeTerminal

/-- C9. For `0 <= n <= 99`, `DrawNumber(n, r, c, b)` is the glyph of the digit
`n / 10` drawn at `(r, c)` followed by the glyph of the digit `n % 10` drawn at
`(r, c + Size + Space)`, both with the size and the spacing of the state
`DrawNumber` starts from and with the tone `b`; both values are digits, so
`DrawSegment` draws them as they are. -/
theorem DrawNumber_two_glyphs (st : State) (n r c : Int) (b : Block)
    (h0 : 0 ≤ n) (h99 : n ≤ 99) :
    DrawNumber st n r c b
      = ((DrawSegment st (n / 10) r c st.Size b).bind fun st1 =>
          DrawSegment st1 (n % 10) r (c + st.Size + st.Space) st.Size b)
    ∧ 0 ≤ n / 10 ∧ n / 10 ≤ 9 ∧ 0 ≤ n % 10 ∧ n % 10 ≤ 9 := by
  refine ⟨?_, by omega, by omega, by omega, by omega⟩
  rw [DrawNumber_eq, Int.tdiv_eq_ediv h0 (by decide), Int.tmod_eq_emod h0 (by decide)]

theorem DrawNumber_two_glyphs_witness :
    (0 : Int) ≤ 23 ∧ (23 : Int) ≤ 99
    ∧ DrawNumber sampleState 23 0 0 Block.BLOCK_GREY
      = (DrawSegment sampleState (23 / 10) 0 0 sampleState.Size Block.BLOCK_GREY).bind
          fun st1 => DrawSegment st1 (23 % 10) 0 (0 + sampleState.Size + sampleState.Space)
            sampleState.Size Block.BLOCK_GREY :=
  ⟨by decide, by decide,
    (DrawNumber_two_glyphs sampleState 23 0 0 Block.BLOCK_GREY (by decide) (by decide)).1⟩

/-- C10, evaluated where the code departs from it. `Resize` subtracts five times the
value the variable `Space` holds on entry, not five times the constant 4. At
startup that value is 0: with `Columns = 81` the size is 12, where the
formula of the specification gives 8; a second `Resize` with the same
dimensions starts from `Space = 2` and computes the size 10. -/
theorem Resize_size_uses_prior_Space :
    (Init initialState 24 80).Columns = 81 ∧ (Init initialState 24 80).Size = 12
    ∧ specSize 81 = 8
    ∧ (Resize (Init initialState 24 80) 24 80).Columns = 81
    ∧ (Resize (Init initialState 24 80) 24 80).Size = 10 := by
  refine ⟨rfl, by decide, by decide, rfl, by decide⟩


/-- C11, evaluated where the code departs from it. At startup on a terminal of 20
columns (`Columns = 21`) the size is 4, so `Columns < Size * 6 + 2`: the
subtraction `Columns - Size * 6 - 2` is done in `size_t` and wraps, the
minimum with 4 is 4 and `Resize` leaves `Space = 4`. The formula of the claim
in signed arithmetic gives `t = -1` and the spacing 2. (When the subtraction
does not wrap, the code agrees with the formula: `ResizeLayout_space_wide`.) -/
theorem Resize_space_unsigned_wrap :
    (Init initialState 24 20).Columns = 21 ∧ (Init initialState 24 20).Size = 4
    ∧ ((Init initialState 24 20).Columns : Int) < (Init initialState 24 20).Size * 6 + 2
    ∧ (Init initialState 24 20).Space = 4
    ∧ specSpace 21 4 = 2 := by
  refine ⟨rfl, by decide, by decide, by decide, by decide⟩

/-- C12 as stated fails: the glyph of 0 at `(0, 0)` with size 4 has its top stroke
lit (bit 0) and that stroke is the run of the 5 cells `(0, 0) .. (0, 4)`, not
of 4; its upper left stroke (bit 3) is the run of the 3 cells
`(0, 0) .. (2, 0)`, not of 2. -/
theorem DrawSegment_run_lengths_at_size_4 :
    (Numbers.getD 0 0).testBit 0 = true ∧ (Numbers.getD 0 0).testBit 3 = true
    ∧ StrokeCells 0 0 0 4 = [(0, 0), (0, 1), (0, 2), (0, 3), (0, 4)]
    ∧ (StrokeCells 0 0 0 4).length ≠ 4
    ∧ StrokeCells 3 0 0 4 = [(0, 0), (1, 0), (2, 0)]
    ∧ (StrokeCells 3 0 0 4).length ≠ 4 / 2 := by
  refine ⟨by decide, by decide, by decide, by decide, by decide, by decide⟩

/-- C12, amended. For a digit in 0..9, an even size of at least 4 and any position,
`DrawSegment` writes the lit strokes one after the other; each horizontal
stroke (bits 0-2) is a run of `size + 1` distinct cells on one row, at the
vertical offset 0, `size / 2` or `size`, starting at the column `col`; each
vertical stroke (bits 3-6) is a run of `size / 2 + 1` distinct cells on one
column (`col` or `col + size`), starting at the row `row` or
`row + size / 2`. -/
theorem DrawSegment_stroke_runs (v row col size : Int) (hv0 : 0 ≤ v) (hv9 : v ≤ 9)
    (hs : 4 ≤ size) (he : size % 2 = 0) :
    DrawSegmentCells v row col size
      = ((List.range 7).flatMap fun i =>
          if (Numbers.getD v.toNat 0).testBit i = true then StrokeCells i row col size else [])
    ∧ StrokeCells 0 row col size = rowRun row col (size + 1).toNat
    ∧ StrokeCells 1 row col size = rowRun (row + size / 2) col (size + 1).toNat
    ∧ StrokeCells 2 row col size = rowRun (row + size) col (size + 1).toNat
    ∧ StrokeCells 3 row col size = columnRun row col (size / 2 + 1).toNat
    ∧ StrokeCells 4 row col size = columnRun (row + size / 2) col (size / 2 + 1).toNat
    ∧ StrokeCells 5 row col size = columnRun row (col + size) (size / 2 + 1).toNat
    ∧ StrokeCells 6 row col size
        = columnRun (row + size / 2) (col + size) (size / 2 + 1).toNat
    ∧ (((size + 1).toNat : Int) = size + 1 ∧ ((size / 2 + 1).toNat : Int) = size / 2 + 1
        ∧ size / 2 + size / 2 = size)
    ∧ (∀ (r c : Int) (n : Nat), (rowRun r c n).length = n ∧ (rowRun r c n).Nodup
        ∧ ∀ p ∈ rowRun r c n, p.1 = r ∧ c ≤ p.2 ∧ p.2 < c + n)
    ∧ (∀ (r c : Int) (n : Nat), (columnRun r c n).length = n ∧ (columnRun r c n).Nodup
        ∧ ∀ p ∈ columnRun r c n, p.2 = c ∧ r ≤ p.1 ∧ p.1 < r + n) := by
  obtain ⟨vn, rfl⟩ := Int.eq_ofNat_of_zero_le hv0
  obtain ⟨h0, h1, h2, h3, h4, h5, h6⟩ := StrokeCells_runs row col size (by omega)
  refine ⟨?_, h0, h1, h2, h3, h4, h5, h6, ⟨by omega, by omega, by omega⟩, ?_, ?_⟩
  · rw [DrawSegmentCells_strokes vn (by omega) row col size]
    simp only [Int.toNat_ofNat]
  · intro r c n
    refine ⟨rowRun_length r c n, rowRun_nodup r c n, ?_⟩
    intro p hp
    simp only [rowRun, List.mem_map, List.mem_range] at hp
    obtain ⟨j, hj, rfl⟩ := hp
    show r = r ∧ c ≤ c + (j : Int) ∧ c + (j : Int) < c + (n : Int)
    omega
  · intro r c n
    refine ⟨columnRun_length r c n, columnRun_nodup r c n, ?_⟩
    intro p hp
    simp only [columnRun, List.mem_map, List.mem_range] at hp
    obtain ⟨j, hj, rfl⟩ := hp
    show c = c ∧ r ≤ r + (j : Int) ∧ r + (j : Int) < r + (n : Int)
    omega

theorem DrawSegment_stroke_runs_witness :
    (0 : Int) ≤ 0 ∧ (0 : Int) ≤ 9 ∧ (4 : Int) ≤ 4 ∧ (4 : Int) % 2 = 0
    ∧ StrokeCells 0 0 0 4 = rowRun 0 0 ((4 : Int) + 1).toNat
    ∧ StrokeCells 3 0 0 4 = columnRun 0 0 ((4 : Int) / 2 + 1).toNat :=
  ⟨by decide, by decide, by decide, by decide,
    (DrawSegment_stroke_runs 0 0 0 4 (by decide) (by decide) (by decide) (by decide)).2.1,
    (DrawSegment_stroke_runs 0 0 0 4 (by decide) (by decide) (by decide)
      (by decide)).2.2.2.2.1⟩

/-- C13. `DrawSegment` clamps its value to `[0, 9]`: a negative value is drawn as 0,
a value above 9 as 9 (same position, size, tone and buffer), and the index
into the table `Numbers`, which has 10 entries, is between 0 and 9 whatever
the value. -/
theorem DrawSegment_clamps (st : State) (v r c size : Int) (b : Block) :
    (v < 0 → DrawSegment st v r c size b = DrawSegment st 0 r c size b)
    ∧ (9 < v → DrawSegment st v r c size b = DrawSegment st 9 r c size b)
    ∧ DrawSegment st v r c size b = DrawSegment st (max (min v 9) 0) r c size b
    ∧ 0 ≤ max (min v 9) 0 ∧ max (min v 9) 0 ≤ 9
    ∧ (max (min v 9) 0).toNat < Numbers.length := by
  have hc := DrawSegmentCells_clamp v r c size
  refine ⟨?_, ?_, ?_, by omega, by omega, ?_⟩
  · intro hv
    have e : max (min v 9) 0 = 0 := by omega
    unfold DrawSegment
    rw [hc, e]
  · intro hv
    have e : max (min v 9) 0 = 9 := by omega
    unfold DrawSegment
    rw [hc, e]
  · unfold DrawSegment
    rw [← hc]
  · have e : Numbers.length = 10 := by decide
    rw [e]
    omega

theorem DrawSegment_clamps_witness :
    ((-3 : Int) < 0 ∧ DrawSegment sampleState (-3) 0 0 4 Block.BLOCK_GREY
        = DrawSegment sampleState 0 0 0 4 Block.BLOCK_GREY)
    ∧ ((9 : Int) < 12 ∧ DrawSegment sampleState 12 0 0 4 Block.BLOCK_GREY
        = DrawSegment sampleState 9 0 0 4 Block.BLOCK_GREY) :=
  ⟨⟨by decide, (DrawSegment_clamps sampleState (-3) 0 0 4 Block.BLOCK_GREY).1 (by decide)⟩,
    ⟨by decide, (DrawSegment_clamps sampleState 12 0 0 4 Block.BLOCK_GREY).2.1 (by decide)⟩⟩

/-- C14 as stated fails when `Size = 6`. On a terminal of 49 columns and 11 rows
(buffer of 12 x 50 cells, `Size = 6`, `Space = 2`, the layout fits) the rows
`OffsetY + 3` and `OffsetY + Size - 3` are the same row 6: the two separator
calls of a gap write the same cell, and the frame of 23:45:18 holds two solid
cells, not four. -/
theorem separators_coincide_at_size_6 :
    sizeSixTerminal.Size = 6 ∧ sizeSixTerminal.Space = 2
    ∧ TotalX sizeSixTerminal ≤ (sizeSixTerminal.Columns : Int)
    ∧ sizeSixTerminal.Size ≤ (sizeSixTerminal.Rows : Int)
    ∧ OffsetY sizeSixTerminal + 3 = 6
    ∧ OffsetY sizeSixTerminal + sizeSixTerminal.Size - 3 = 6
    ∧ ∃ st1, mainFrame sizeSixTerminal 23 45 18 = some st1
        ∧ (st1.cellsWith Block.BLOCK_BLACK).card = 2 := by
  have hS : sizeSixTerminal.Size = 6 := by decide
  have hP : sizeSixTerminal.Space = 2 := by decide
  have hfx : TotalX sizeSixTerminal ≤ (sizeSixTerminal.Columns : Int) := by
    unfold TotalX
    rw [hS, hP]
    decide
  have hfy : sizeSixTerminal.Size ≤ (sizeSixTerminal.Rows : Int) := by
    rw [hS]
    decide
  obtain ⟨st1, e, _, _, _, _, h6⟩ :=
    mainFrame_solid_cells sizeSixTerminal (Resize_wellFormed _ _ _) (by decide)
      (Resize_layoutOK _ _ _) hfx hfy 23 45 18 (by decide) (by decide) (by decide)
  refine ⟨hS, hP, hfx, hfy, by decide, by decide, st1, e, (h6 hS).2⟩

/-- C14, amended. For a layout that satisfies the invariant and a buffer of at most
`2 ^ 31` cells in which the layout fits, the frame of every time holds a solid
cell exactly at the rows `OffsetY + 3` and `OffsetY + Size - 3` of the two
separator columns, one column in each gap; these cells are inside the buffer.
When `Size` is not 6 the two rows differ and the frame holds exactly four
solid cells; when `Size = 6` the two rows are the same one and the frame holds
exactly two. -/
theorem frame_separators (st : State) (hw : st.wellFormed)
    (ha : st.Rows * st.Columns ≤ 2 ^ 31) (hl : st.layoutOK)
    (hfx : TotalX st ≤ st.Columns) (hfy : st.Size ≤ st.Rows)
    (h m s : Nat) (hh : h ≤ 23) (hm : m ≤ 59) (hs : s ≤ 59) :
    ∃ st1, mainFrame st h m s = some st1
      ∧ (∀ r c : Nat, r < st.Rows → c < st.Columns →
          (st1.cell r c = Block.BLOCK_BLACK
            ↔ ((r : Int) = OffsetY st + 3 ∨ (r : Int) = OffsetY st + st.Size - 3)
              ∧ ((c : Int) = separatorColumn (OffsetX st) st.Size st.Space 2
                  ∨ (c : Int) = separatorColumn (OffsetX st) st.Size st.Space 4)))
      ∧ (0 ≤ OffsetY st + 3 ∧ OffsetY st + 3 < st.Rows
          ∧ 0 ≤ OffsetY st + st.Size - 3 ∧ OffsetY st + st.Size - 3 < st.Rows
          ∧ 0 ≤ separatorColumn (OffsetX st) st.Size st.Space 2
          ∧ separatorColumn (OffsetX st) st.Size st.Space 2
              < separatorColumn (OffsetX st) st.Size st.Space 4
          ∧ separatorColumn (OffsetX st) st.Size st.Space 4 < st.Columns)
      ∧ (st.Size ≠ 6 → OffsetY st + 3 ≠ OffsetY st + st.Size - 3
          ∧ (st1.cellsWith Block.BLOCK_BLACK).card = 4)
      ∧ (st.Size = 6 → OffsetY st + 3 = OffsetY st + st.Size - 3
          ∧ (st1.cellsWith Block.BLOCK_BLACK).card = 2) := by
  obtain ⟨st1, e, hiff, hrange, _, h4, h6⟩ :=
    mainFrame_solid_cells st hw ha hl hfx hfy h m s hh hm hs
  exact ⟨st1, e, hiff, hrange, h4, h6⟩

theorem frame_separators_witness :
    sizeFourTerminal.wellFormed
    ∧ sizeFourTerminal.Rows * sizeFourTerminal.Columns ≤ 2 ^ 31
    ∧ sizeFourTerminal.layoutOK
    ∧ TotalX sizeFourTerminal ≤ (sizeFourTerminal.Columns : Int)
    ∧ sizeFourTerminal.Size ≤ (sizeFourTerminal.Rows : Int)
    ∧ 9 ≤ 23 ∧ 5 ≤ 59 ∧ 7 ≤ 59
    ∧ ∃ st1, mainFrame sizeFourTerminal 9 5 7 = some st1
        ∧ (st1.cellsWith Block.BLOCK_BLACK).card = 4 := by
  have hS : sizeFourTerminal.Size = 4 := by decide
  have hP : sizeFourTerminal.Space = 2 := by decide
  have hfx : TotalX sizeFourTerminal ≤ (sizeFourTerminal.Columns : Int) := by
    unfold TotalX
    rw [hS, hP]
    decide
  have hfy : sizeFourTerminal.Size ≤ (sizeFourTerminal.Rows : Int) := by
    rw [hS]
    decide
  obtain ⟨st1, e, _, _, h4, _⟩ :=
    frame_separators sizeFourTerminal (Resize_wellFormed _ _ _) (by decide)
      (Resize_layoutOK _ _ _) hfx hfy 9 5 7 (by decide) (by decide) (by decide)
  exact ⟨Resize_wellFormed _ _ _, by decide, Resize_layoutOK _ _ _, hfx, hfy, by decide,
    by decide, by decide, st1, e, (h4 (by rw [hS]; decide)).2⟩

/-- C15 as stated fails when the ones digit before the gap is 1 (01:.., 11:..,
21:.. for the first gap). With `Size = 4`, `Space = 2` and the frame at
column 0, the ones glyph of the hours is drawn at column 6; the glyph of 1
writes column 6 only, the separator is in column 11 and the minutes start in
column 12: 4 unwritten columns on the left of the separator, none on its
right. -/
theorem separator_after_digit_one :
    isRightmostColumn (DrawSegmentCells 1 0 (0 + (2 + 4) * (2 - 2) + 4 + 2) 4) 6
    ∧ isLeftmostColumn (DrawSegmentCells 0 0 (0 + (2 + 4) * 2) 4) 12
    ∧ separatorColumn 0 4 2 2 = 11
    ∧ (11 : Int) - 6 - 1 ≠ 12 - 11 - 1 := by
  refine ⟨by decide, by decide, by decide, by decide⟩

/-- C15, amended. For `Size` even and at least 4, `Space` even and at least 2, and
the group number `k` (2 for the minutes, 4 for the seconds), the separator column `OffsetX + (Space + Size) * k - Space / 2`
lies strictly between the slot of the ones glyph before the gap (columns
`prev .. prev + Size`) and the slot of the tens glyph after it (columns from
`next = OffsetX + (Space + Size) * k`), with `Space / 2 - 1` columns on each side.
Every digit writes the leftmost column of its slot and every digit other than
1 writes the rightmost one, so for these digits the columns left free on each
side are the unwritten ones; the glyph of 1 writes the leftmost column of its
slot only, and `Size + Space / 2 - 1` unwritten columns precede the
separator. -/
theorem separator_centred (X Y Size Space k : Int) (hs : 4 ≤ Size) (he : Size % 2 = 0)
    (hp : 2 ≤ Space) (hpe : Space % 2 = 0) (d1 d2 : Nat)
    (hd1 : d1 ≤ 9) (hd2 : d2 ≤ 9) :
    (∀ p ∈ DrawSegmentCells d1 Y (X + (Space + Size) * (k - 2) + Size + Space) Size,
        p.2 ≤ X + (Space + Size) * (k - 2) + Size + Space + Size)
    ∧ X + (Space + Size) * (k - 2) + Size + Space + Size < separatorColumn X Size Space k
    ∧ separatorColumn X Size Space k < X + (Space + Size) * k
    ∧ separatorColumn X Size Space k
        - (X + (Space + Size) * (k - 2) + Size + Space + Size) - 1 = Space / 2 - 1
    ∧ X + (Space + Size) * k - separatorColumn X Size Space k - 1 = Space / 2 - 1
    ∧ isLeftmostColumn (DrawSegmentCells d2 Y (X + (Space + Size) * k) Size)
        (X + (Space + Size) * k)
    ∧ (d1 ≠ 1 →
        isRightmostColumn
          (DrawSegmentCells d1 Y (X + (Space + Size) * (k - 2) + Size + Space) Size)
          (X + (Space + Size) * (k - 2) + Size + Space + Size))
    ∧ (d1 = 1 →
        isRightmostColumn
          (DrawSegmentCells d1 Y (X + (Space + Size) * (k - 2) + Size + Space) Size)
          (X + (Space + Size) * (k - 2) + Size + Space)
        ∧ separatorColumn X Size Space k
            - (X + (Space + Size) * (k - 2) + Size + Space) - 1 = Size + Space / 2 - 1) := by
  have hsep : separatorColumn X Size Space k = X + (Space + Size) * k - Space / 2 := by
    unfold separatorColumn
    rw [tdiv_two Space (by omega)]
  have hprev : X + (Space + Size) * (k - 2) + Size + Space + Size
      = X + (Space + Size) * k - Space := by ring
  rw [hsep]
  refine ⟨?_, by rw [hprev]; omega, by omega, by rw [hprev]; omega, by omega, ?_, ?_, ?_⟩
  · intro p hp1
    rw [mem_DrawSegmentCells d1 (by omega) _ _ Size (by omega) he] at hp1
    exact (inGlyph_box d1 _ _ Size (by omega) p hp1).2.2.2
  · exact glyph_leftmost d2 (by omega) Y _ Size (by omega) he
  · intro h1
    exact glyph_rightmost d1 (by omega) h1 Y _ Size (by omega) he
  · intro h1
    subst h1
    refine ⟨?_, ?_⟩
    · have h := glyph_one_rightmost Y (X + (Space + Size) * (k - 2) + Size + Space) Size
        (by omega) he
      simpa only [Nat.cast_one] using h
    · have hprev2 : X + (Space + Size) * (k - 2) + Size + Space
          = X + (Space + Size) * k - Space - Size := by ring
      rw [hprev2]
      omega

theorem separator_centred_witness :
    (4 : Int) ≤ 4 ∧ (4 : Int) % 2 = 0 ∧ (2 : Int) ≤ 2 ∧ (2 : Int) % 2 = 0
    ∧ 9 ≤ 9 ∧ 0 ≤ 9
    ∧ (0 : Int) + (2 + 4) * (2 - 2) + 4 + 2 + 4 < separatorColumn 0 4 2 2
    ∧ separatorColumn 0 4 2 2 < 0 + (2 + 4) * 2 :=
  ⟨by decide, by decide, by decide, by decide, by decide, by decide,
    (separator_centred 0 0 4 2 2 (by decide) (by decide) (by decide) (by decide)
      9 0 (by decide) (by decide)).2.1,
    (separator_centred 0 0 4 2 2 (by decide) (by decide) (by decide) (by decide)
      9 0 (by decide) (by decide)).2.2.1⟩

/-- C16, evaluated where the code departs from it. An 80 x 24 terminal is resized
and reports 65535 rows and 65535 columns. If `malloc` answers a null pointer,
`Resize` reports it with `perror` and goes on to `memset` the null pointer:
`Handle` does not return to the loop, and that for every state and every
report. If `malloc` succeeds, whatever the storage holds, `Handle` returns to
the loop in the state `hugeTerminal`: `Rows = Columns = 65536`, a buffer of
exactly `Rows * Columns` cells, all `BLOCK_WHITE`, a layout that satisfies the
invariant. But the cell writes of the following frame are not indexed against
the new dimensions: the write at `(32768, 3)` passes the bounds check, its slot
`3 + 32768 * 65536` does not fit the `int` index and the store is outside the
new buffer, so the frame of 10:00:00 is not drawn. (`Handle_SIGWINCH_effect`
is the claim when `malloc` succeeds and the new buffer has at most `2 ^ 31`
cells.) -/
theorem Handle_SIGWINCH_huge_report :
    (∀ (st : State) (ws_row ws_col : Nat), Handle st SIGWINCH ws_row ws_col none = none)
    ∧ (∀ junk : Nat → Block,
        Handle (Init initialState 24 80) SIGWINCH 65535 65535 (some junk)
          = some (Control.restart hugeTerminal))
    ∧ hugeTerminal.Rows = 65535 + 1 ∧ hugeTerminal.Columns = 65535 + 1
    ∧ hugeTerminal.Screen.length = hugeTerminal.Rows * hugeTerminal.Columns
    ∧ (∀ b ∈ hugeTerminal.Screen, b = Block.BLOCK_WHITE)
    ∧ hugeTerminal.layoutOK
    ∧ (32768 : Int) < hugeTerminal.Rows ∧ (3 : Int) < hugeTerminal.Columns
    ∧ SetBlock hugeTerminal Block.BLOCK_DARK_GREY 32768 3 = none
    ∧ mainFrame hugeTerminal 10 0 0 = none := by
  refine ⟨Handle_SIGWINCH_failure, ?_, rfl, rfl, (Resize_wellFormed _ _ _).1,
    Resize_all_blank _ _ _, Resize_layoutOK _ _ _, by decide, by decide, ?_,
    mainFrame_hugeTerminal⟩
  · intro junk
    rw [Handle_SIGWINCH_success]
    exact congrArg (fun x => some (Control.restart x))
      (Resize_congr (Init initialState 65535 65535) _ 65535 65535 (by decide))
  · have h := SetBlock_overflow hugeTerminal Block.BLOCK_DARK_GREY 32768 3
      (by decide) (by decide) (by decide) (by decide)
    simpa only [Nat.cast_ofNat] using h

/-- C17, evaluated where the code departs from it. On the 65536 x 65536 buffer of
`hugeTerminal` the pair `(65535, 65535)` is inside the bounds and its slot
`c + r * Columns = 2 ^ 32 - 1` is below `Rows * Columns`, but the index
`SetBlock` and `DrawFrame` use is an `int` and has the value -1: the store of
`SetBlock` and the read of `DrawFrame` are outside the buffer. (Slots below
`2 ^ 31` are kept as they are, `GET_INDEX_int`; the slot is below
`Rows * Columns` and determines the pair, `index_lt` and `index_inj`.) -/
theorem slot_index_int_negative :
    hugeTerminal.Rows = 65536 ∧ hugeTerminal.Columns = 65536
    ∧ 65535 + 65535 * hugeTerminal.Columns < hugeTerminal.Rows * hugeTerminal.Columns
    ∧ toInt (GET_INDEX hugeTerminal.Columns 65535 65535) = -1
    ∧ SetBlock hugeTerminal Block.BLOCK_WHITE 65535 65535 = none
    ∧ DrawFrameCell hugeTerminal 65535 65535 = none := by
  refine ⟨rfl, rfl, by decide, by decide, ?_, ?_⟩
  · have h := SetBlock_overflow hugeTerminal Block.BLOCK_WHITE 65535 65535
      (by decide) (by decide) (by decide) (by decide)
    simpa only [Nat.cast_ofNat] using h
  · exact DrawFrameCell_overflow hugeTerminal 65535 65535 (by decide) (by decide)

/-- C18, evaluated where the code departs from it. On the 65536 x 65536 buffer of
`hugeTerminal` `DrawFrame` reaches the cell `(32768, 0)`, whose slot `2 ^ 31`
does not fit the `int` index: the read `Screen[Index]` is outside the buffer
and the outputs of the frame are not defined. (`DrawFrame_effect` is the claim
for buffers of at most `2 ^ 31` cells, with `DrawFrameOrder_length` and
`Blocks_table`.) -/
theorem DrawFrame_int_index_overflow :
    hugeTerminal.wellFormed
    ∧ ((32768, 0) : Nat × Nat) ∈ DrawFrameOrder hugeTerminal.Rows hugeTerminal.Columns
    ∧ toInt (GET_INDEX hugeTerminal.Columns 32768 0) = -2147483648
    ∧ DrawFrameCell hugeTerminal 32768 0 = none
    ∧ DrawFrame hugeTerminal = none := by
  have hc : DrawFrameCell hugeTerminal 32768 0 = none :=
    DrawFrameCell_overflow hugeTerminal 32768 0 (by decide) (by decide)
  have hm : ((32768, 0) : Nat × Nat)
      ∈ DrawFrameOrder hugeTerminal.Rows hugeTerminal.Columns := by
    rw [mem_DrawFrameOrder]
    exact ⟨by decide, by decide⟩
  refine ⟨Resize_wellFormed _ _ _, hm, by decide, hc, ?_⟩
  unfold DrawFrame
  exact collectOutputs_none _ (32768, 0) _ hm hc

/-- C19. For an even size of at least 4, any position and two different digits
`d1`, `d2` in 0..9, some cell is written by `DrawSegment` for one of the digits
and not for the other: the sets of cells differ. The strokes do share their
end cells: the corner `(row, col)` belongs to the top stroke and to the upper
left one, the cell `(row + size / 2, col + size)` to the middle stroke and to
both right strokes. -/
theorem glyphs_distinguishable (d1 d2 : Nat) (row col size : Int) (h1 : d1 ≤ 9)
    (h2 : d2 ≤ 9) (hne : d1 ≠ d2) (hs : 4 ≤ size) (he : size % 2 = 0) :
    (∃ p : Int × Int, ¬ (p ∈ DrawSegmentCells d1 row col size
        ↔ p ∈ DrawSegmentCells d2 row col size))
    ∧ (onStroke 0 row col size (row, col) ∧ onStroke 3 row col size (row, col))
    ∧ (onStroke 1 row col size (row + size / 2, col + size)
        ∧ onStroke 5 row col size (row + size / 2, col + size)
        ∧ onStroke 6 row col size (row + size / 2, col + size)) := by
  refine ⟨?_, ⟨?_, ?_⟩, ⟨?_, ?_, ?_⟩⟩
  · obtain ⟨k, hk, hbit⟩ := masks_differ d1 d2 (by omega) (by omega) hne
    refine ⟨privateCell k row col size, ?_⟩
    rw [mem_DrawSegmentCells d1 (by omega) row col size (by omega) he,
      mem_DrawSegmentCells d2 (by omega) row col size (by omega) he,
      inGlyph_privateCell d1 k hk row col size hs he,
      inGlyph_privateCell d2 k hk row col size hs he]
    intro hiff
    apply hbit
    cases hb1 : (Numbers.getD d1 0).testBit k <;>
      cases hb2 : (Numbers.getD d2 0).testBit k <;>
      simp_all
  all_goals
    dsimp only [onStroke]
    omega

theorem glyphs_distinguishable_witness :
    3 ≤ 9 ∧ 9 ≤ 9 ∧ 3 ≠ 9 ∧ (4 : Int) ≤ 4 ∧ (4 : Int) % 2 = 0
    ∧ ∃ p : Int × Int, ¬ (p ∈ DrawSegmentCells (3 : Nat) 0 0 4
        ↔ p ∈ DrawSegmentCells (9 : Nat) 0 0 4) :=
  ⟨by decide, by decide, by decide, by decide, by decide,
    (glyphs_distinguishable 3 9 0 0 4 (by decide) (by decide) (by decide) (by decide)
      (by decide)).1⟩

/-- C20. For `Size` even and at least 4, `Space` even and at least 2, every placement
and every time, the cells of one pass of the loop fall in eight groups, from
left to right the two glyphs of the hours, the separator cells of the first
gap, the two glyphs of the minutes, the separator cells of the second gap and
the two glyphs of the seconds. Each group stays within the rows
`Y .. Y + Size` and within the columns `start .. start + Size` of its slot
(the separator cells in the one column `start`), the eight groups are
pairwise disjoint and every call writes in one of them, so no cell is written
with two different tones. Hence the tone every cell ends with is the same for
every order of the calls, and on a buffer of at most `2 ^ 31` cells every
order leaves the same tones. (Within a gap the two separator calls write the
same cell when `Size = 6`, with the same tone.) -/
theorem frame_no_overlap (Y X Size Space tm_hour tm_min tm_sec : Int) (hs : 4 ≤ Size)
    (he : Size % 2 = 0) (hp : 2 ≤ Space) (hpe : Space % 2 = 0) :
    (∀ g ∈ (frameGroups Y X Size Space tm_hour tm_min tm_sec).zip (groupStarts X Size Space),
        ∀ p ∈ g.1, Y ≤ p.1 ∧ p.1 ≤ Y + Size ∧ g.2 ≤ p.2 ∧ p.2 ≤ g.2 + Size)
    ∧ ((frameGroups Y X Size Space tm_hour tm_min tm_sec).Pairwise
        fun A B => ∀ p ∈ A, p ∉ B)
    ∧ (∀ w ∈ frameWrites Y X Size Space tm_hour tm_min tm_sec,
        ∃ g ∈ frameGroups Y X Size Space tm_hour tm_min tm_sec, w.2 ∈ g)
    ∧ sameToneWrites (frameWrites Y X Size Space tm_hour tm_min tm_sec)
    ∧ (∀ ws1 : List (Block × (Int × Int)),
        ws1.Perm (frameWrites Y X Size Space tm_hour tm_min tm_sec) →
        ∀ p, lastTone ws1 p = lastTone (frameWrites Y X Size Space tm_hour tm_min tm_sec) p)
    ∧ (∀ st : State, st.wellFormed → st.Rows * st.Columns ≤ 2 ^ 31 →
        ∀ ws1 : List (Block × (Int × Int)),
        ws1.Perm (frameWrites Y X Size Space tm_hour tm_min tm_sec) →
        ∃ s1 s2, paint st (frameWrites Y X Size Space tm_hour tm_min tm_sec) = some s1
          ∧ paint st ws1 = some s2
          ∧ ∀ r c : Nat, r < st.Rows → c < st.Columns → s2.cell r c = s1.cell r c)
    ∧ (∀ st : State, mainFrame st tm_hour tm_min tm_sec
        = (ClearScreen st).bind fun s0 =>
            paint s0 (frameWrites (OffsetY s0) (OffsetX s0) s0.Size s0.Space
              tm_hour tm_min tm_sec)) := by
  have hc := frameWrites_sameTone Y X Size Space tm_hour tm_min tm_sec hs he hp hpe
  refine ⟨frameGroups_columns Y X Size Space tm_hour tm_min tm_sec hs he,
    frameGroups_disjoint Y X Size Space tm_hour tm_min tm_sec hs he hp hpe,
    frameWrites_in_groups Y X Size Space tm_hour tm_min tm_sec, hc, ?_, ?_, ?_⟩
  · intro ws1 hperm p
    exact lastTone_perm _ ws1 hc hperm p
  · intro st hw ha ws1 hperm
    exact paint_perm st hw ha _ ws1 hc hperm
  · intro st
    exact mainFrame_eq_paint st tm_hour tm_min tm_sec

theorem frame_no_overlap_witness :
    (4 : Int) ≤ 4 ∧ (4 : Int) % 2 = 0 ∧ (2 : Int) ≤ 2 ∧ (2 : Int) % 2 = 0
    ∧ ((frameGroups 4 3 4 2 9 5 7).Pairwise fun A B => ∀ p ∈ A, p ∉ B)
    ∧ sameToneWrites (frameWrites 4 3 4 2 9 5 7) :=
  ⟨by decide, by decide, by decide, by decide,
    (frame_no_overlap 4 3 4 2 9 5 7 (by decide) (by decide) (by decide) (by decide)).2.1,
    (frame_no_overlap 4 3 4 2 9 5 7 (by decide) (by decide) (by decide)
      (by decide)).2.2.2.1⟩

end SimpleClock
